import Mathlib

/-!
Verification development for the AutoDeployr Flask static-analysis pipeline
(`analyzers/flask-ast-analyzer`).  The Python sources are shallowly embedded:

* the fragment of the Python abstract syntax that the visitors in
  `ast_parser/app_visitor.py` inspect is the inductive family `PyExpr`/`PyStmt`;
* each `ast.NodeVisitor` subclass becomes a recursive traversal;
* dictionaries become association lists with in-place replacement
  (`insertReplace`), Python sets become lists with membership-guarded append;
* the regex text transform of `ast_parser/http_method_fixer.py` is embedded as
  a character-list scanner with the exact leftmost, non-overlapping,
  maximal-munch semantics of `re.sub` for the two concrete patterns used.

Functions whose Python source stores function source code as a string and
re-parses it (`route["source"]`, dependency sources) carry the parse tree
directly: the embedding identifies a captured source string with the tree that
re-parsing it yields.  Positional metadata (line numbers) and the I/O layer
(file reads, backups, logging) are outside the embedding.
-/

/-- Python constant values as they appear in `ast.Constant` nodes
(the value shapes the analyzer inspects). -/
inductive PyVal where
  | str : String → PyVal
  | int : Int → PyVal
  | bool : Bool → PyVal
  | none : PyVal
deriving DecidableEq, Repr

/-- Python truthiness of a constant, as used by `if path:` in
`FlaskRouteVisitor.visit_FunctionDef`. -/
def pyTruthy : PyVal → Bool
  | .str s => s ≠ ""
  | .int n => n ≠ 0
  | .bool b => b
  | .none => false

mutual
/-- Expression fragment of the Python AST inspected by the visitors in
`app_visitor.py`: names, attribute access, constants, list displays,
subscripts and calls (with positional and keyword arguments). -/
inductive PyExpr where
  | name : String → PyExpr
  | attr : PyExpr → String → PyExpr
  | const : PyVal → PyExpr
  | listE : PyExprList → PyExpr
  | subscript : PyExpr → PyExpr → PyExpr
  | call : PyExpr → PyExprList → PyKwList → PyExpr

/-- A list of expressions (kept mutually inductive for structural recursion). -/
inductive PyExprList where
  | nil : PyExprList
  | cons : PyExpr → PyExprList → PyExprList

/-- Keyword arguments of a call: `arg = none` models `**kwargs`. -/
inductive PyKwList where
  | nil : PyKwList
  | cons : Option String → PyExpr → PyKwList → PyKwList
end

mutual
/-- Statement fragment of the Python AST inspected by the visitors:
expression statements, assignments, the two import statement forms,
function definitions (with decorator list) and `return`. -/
inductive PyStmt where
  | expr : PyExpr → PyStmt
  | assign : PyExprList → PyExpr → PyStmt
  | imprt : List (String × Option String) → PyStmt
  | fromImport : Option String → List (String × Option String) → PyStmt
  | functionDef : String → PyExprList → PyStmtList → PyStmt
  | ret : Option PyExpr → PyStmt

/-- A list of statements (a module body or a function body). -/
inductive PyStmtList where
  | nil : PyStmtList
  | cons : PyStmt → PyStmtList → PyStmtList
end

/-- One importable binding: `ast_parser/models.py`, `ImportDefinition`
(a frozen dataclass, equal by the `(module, alias)` pair). -/
structure ImportDefinition where
  module : String
  «alias» : String
deriving DecidableEq, Repr

/-- Membership-guarded append: how an element is added to a Python `set`
modelled as a list. -/
def addStr (l : List String) (s : String) : List String :=
  if s ∈ l then l else l ++ [s]

/-- Membership-guarded append for import definitions: the repeated Python
idiom `if imp not in used_imports: used_imports.append(imp)`. -/
def addIfAbsent (a : List ImportDefinition) (imp : ImportDefinition) :
    List ImportDefinition :=
  if imp ∈ a then a else a ++ [imp]

/-- Assignment `d[k] = v` into a Python dict modelled as an association list:
replaces in place, else appends. -/
def insertReplace {α : Type} : List (String × α) → String → α → List (String × α)
  | [], k, v => [(k, v)]
  | (k2, v2) :: rest, k, v =>
      if k2 = k then (k, v) :: rest else (k2, v2) :: insertReplace rest k v

/-- Set union `a.update(b)` on sets modelled as lists. -/
def setUnion (a b : List String) : List String :=
  a ++ b.filter (fun x => decide (x ∉ a))

/-- Lowercasing, for Python `str.lower()` on module names. -/
def strLower (s : String) : String := String.mk (s.toList.map Char.toLower)

/-- Does `n` occur at the start of `h`? (list-level helper for Python
substring containment). -/
def begMatch : List Char → List Char → Bool
  | [], _ => true
  | _ :: _, [] => false
  | a :: as, b :: bs => a == b && begMatch as bs

/-- Does `n` occur anywhere inside `h`? -/
def subMatchL (n : List Char) : List Char → Bool
  | [] => begMatch n []
  | c :: rest => begMatch n (c :: rest) || subMatchL n rest

/-- Python `needle in haystack` on strings (substring containment). -/
def subMatch (needle haystack : String) : Bool :=
  subMatchL needle.toList haystack.toList

/-- Python `s.startswith(p)`. -/
def strStartsWith (s p : String) : Bool := begMatch p.toList s.toList

/-- Python `s.endswith(p)`. -/
def strEndsWith (s p : String) : Bool :=
  begMatch p.toList.reverse s.toList.reverse

/- ----------------------------------------------------------------------
`ast_parser/http_method_fixer.py`: the two `re.sub` rewrites.
---------------------------------------------------------------------- -/

/-- The ASCII apostrophe inserted by the replacement templates. -/
def quoteChar : Char := Char.ofNat 39

/-- Is `c` in the regex class `[A-Z]`? -/
def isUp (c : Char) : Bool := 'A' ≤ c && c ≤ 'Z'

/-- The literal prefix of both patterns. -/
def patChars : List Char := ['m', 'e', 't', 'h', 'o', 'd', 's', '=', '[']

/-- The tail of `patChars` (used when reasoning about matches that start at
an `m`). -/
def patTail : List Char := ['e', 't', 'h', 'o', 'd', 's', '=', '[']

/-- Strip the literal `methods=[` prefix, if present. -/
def stripPat (l : List Char) : Option (List Char) :=
  if l.take 9 = patChars then some (l.drop 9) else none

/-- Greedy `[A-Z]*`: the maximal uppercase run and the remainder. -/
def takeUpper : List Char → List Char × List Char
  | [] => ([], [])
  | c :: rest =>
      if isUp c then
        let p := takeUpper rest
        (c :: p.1, p.2)
      else ([], c :: rest)

/-- Match of `methods=\[([A-Z]+)\]` at the head of `l`: on success, the
captured word and the text after the match. -/
def tryMatch1 (l : List Char) : Option (List Char × List Char) :=
  match stripPat l with
  | Option.none => Option.none
  | some rest =>
      let p := takeUpper rest
      if p.1 = [] then Option.none
      else
        match p.2 with
        | ']' :: r => some (p.1, r)
        | _ => Option.none

/-- Match of `methods=\[([A-Z]+), ([A-Z]+)\]` at the head of `l`. -/
def tryMatch2 (l : List Char) : Option (List Char × List Char × List Char) :=
  match stripPat l with
  | Option.none => Option.none
  | some rest =>
      let p := takeUpper rest
      if p.1 = [] then Option.none
      else
        match p.2 with
        | ',' :: ' ' :: rest2 =>
            let q := takeUpper rest2
            if q.1 = [] then Option.none
            else
              match q.2 with
              | ']' :: r => some (p.1, q.1, r)
              | _ => Option.none
        | _ => Option.none

/-- Replacement template of the first rewrite. -/
def repl1 (w : List Char) : List Char :=
  patChars ++ quoteChar :: (w ++ [quoteChar, ']'])

/-- Replacement template of the second rewrite. -/
def repl2 (w1 w2 : List Char) : List Char :=
  patChars ++ quoteChar :: (w1 ++ quoteChar :: ',' :: ' ' :: quoteChar :: (w2 ++ [quoteChar, ']']))

/-- The uppercase run and the remainder partition the input. -/
def takeUpper_len : ∀ t : List Char, (takeUpper t).2.length ≤ t.length := by
  intro t
  induction t with
  | nil => simp [takeUpper]
  | cons a t ih =>
      simp only [takeUpper]
      by_cases ha : isUp a
      · simp only [ha, if_true]
        exact Nat.le_succ_of_le ih
      · simp [ha]

/-- A successful first-pattern match strictly shortens the text. -/
def tryMatch1_lt : ∀ t w r : List Char, tryMatch1 t = some (w, r) → r.length < t.length := by
  intro t w r h
  unfold tryMatch1 at h
  split at h
  · exact absurd h (by simp)
  · rename_i rest hs
    have h9 : t.take 9 = patChars ∧ rest = t.drop 9 := by
      unfold stripPat at hs
      split at hs
      · rename_i hc
        exact ⟨hc, by injection hs with h2; exact h2.symm⟩
      · exact absurd hs (by simp)
    have hlen9 : 9 ≤ t.length := by
      have := congrArg List.length h9.1
      simp [patChars] at this
      omega
    have hrest : rest.length = t.length - 9 := by
      rw [h9.2]; simp
    have hul : (takeUpper rest).2.length ≤ rest.length := takeUpper_len rest
    rcases htu : takeUpper rest with ⟨pw, pr⟩
    rw [htu] at h hul
    simp only at h
    split at h
    · exact absurd h (by simp)
    · split at h
      · injection h with h1
        have h3 := congrArg Prod.snd h1
        simp only at h3
        rw [h3] at hul
        simp at hul
        omega
      · exact absurd h (by simp)

/-- A successful second-pattern match strictly shortens the text. -/
def tryMatch2_lt : ∀ t w1 w2 r : List Char, tryMatch2 t = some (w1, w2, r) → r.length < t.length := by
  intro t w1 w2 r h
  unfold tryMatch2 at h
  split at h
  · exact absurd h (by simp)
  · rename_i rest hs
    have h9 : t.take 9 = patChars ∧ rest = t.drop 9 := by
      unfold stripPat at hs
      split at hs
      · rename_i hc
        exact ⟨hc, by injection hs with h2; exact h2.symm⟩
      · exact absurd hs (by simp)
    have hlen9 : 9 ≤ t.length := by
      have := congrArg List.length h9.1
      simp [patChars] at this
      omega
    have hrest : rest.length = t.length - 9 := by
      rw [h9.2]; simp
    have hul : (takeUpper rest).2.length ≤ rest.length := takeUpper_len rest
    rcases htu : takeUpper rest with ⟨pw, pr⟩
    rw [htu] at h hul
    simp only at h
    split at h
    · exact absurd h (by simp)
    · split at h
      · rename_i rest2
        simp at hul
        have hul2 : (takeUpper rest2).2.length ≤ rest2.length := takeUpper_len rest2
        rcases htu2 : takeUpper rest2 with ⟨qw, qr⟩
        rw [htu2] at h hul2
        simp only at h
        split at h
        · exact absurd h (by simp)
        · split at h
          · injection h with h1
            have h3 := congrArg Prod.snd h1
            simp only at h3
            have h4 := congrArg Prod.snd h3
            simp only at h4
            rw [h4] at hul2
            simp at hul2
            omega
          · exact absurd h (by simp)
      · exact absurd h (by simp)

/-- First `re.sub` pass of `fix_http_methods`: scan left to right, replace
each non-overlapping match of `methods=\[([A-Z]+)\]`, resume after the
replaced span. -/
def subst1 : List Char → List Char
  | [] => []
  | c :: rest =>
      match h : tryMatch1 (c :: rest) with
      | some (w, r) => repl1 w ++ subst1 r
      | Option.none => c :: subst1 rest
termination_by l => l.length
decreasing_by
  · exact tryMatch1_lt _ _ _ h
  · simp

/-- Second `re.sub` pass of `fix_http_methods`, for
`methods=\[([A-Z]+), ([A-Z]+)\]`. -/
def subst2 : List Char → List Char
  | [] => []
  | c :: rest =>
      match h : tryMatch2 (c :: rest) with
      | some (w1, w2, r) => repl2 w1 w2 ++ subst2 r
      | Option.none => c :: subst2 rest
termination_by l => l.length
decreasing_by
  · exact tryMatch2_lt _ _ _ _ h
  · simp

/-- The full text transform of `fix_http_methods` (first pattern, then
second pattern), on character lists. -/
def applyFix (l : List Char) : List Char := subst2 (subst1 l)

/-- The full text transform on strings. -/
def fixContent (s : String) : String := String.mk (applyFix s.toList)

/-- Model of `fix_http_methods`, error-free paths: the returned flag and the final
file content.  The code returns `True` both when it rewrote the file and
when no change was needed (lines 38-49); `False` is reserved for I/O
failures, which are outside the embedding. -/
def fix_http_methods (content : String) : Bool × String :=
  let newContent := fixContent content
  if newContent ≠ content then (true, newContent) else (true, content)

/-- Model of `fix_directory`: walk the files (name, content), process each `.py`
file, and collect the names for which `fix_http_methods` returned `True`. -/
def fix_directory (files : List (String × String)) : List String :=
  files.foldl
    (fun fixed f =>
      if strEndsWith f.1 ".py" then
        if (fix_http_methods f.2).1 then fixed ++ [f.1] else fixed
      else fixed)
    []

/- ----------------------------------------------------------------------
`ast_parser/app_visitor.py`: the visitors.
---------------------------------------------------------------------- -/

mutual
/-- Model of `FlaskAppVisitor.visit_Assign` plus the recursion of `generic_visit`:
thread the (apps, blueprints) pair through the statements.  A bare-name
call `Flask(...)` classifies the target as an app; only an attribute-form
call `<recv>.Blueprint(...)` classifies it as a blueprint. -/
def symStmt (ab : List String × List String) : PyStmt → List String × List String
  | .assign targets value => symTargets ab targets value
  | .functionDef _ _ body => symStmtList ab body
  | _ => ab

/-- Per-target classification of one assignment. -/
def symTargets (ab : List String × List String) :
    PyExprList → PyExpr → List String × List String
  | .nil, _ => ab
  | .cons t rest, value =>
      let ab1 :=
        match t, value with
        | .name tid, .call f _ _ =>
            (match f with
             | .name fid => if fid = "Flask" then (addStr ab.1 tid, ab.2) else ab
             | .attr _ a => if a = "Blueprint" then (ab.1, addStr ab.2 tid) else ab
             | _ => ab)
        | _, _ => ab
      symTargets ab1 rest value

/-- Fold `symStmt` over a statement list. -/
def symStmtList (ab : List String × List String) :
    PyStmtList → List String × List String
  | .nil => ab
  | .cons s rest => symStmtList (symStmt ab s) rest
end

mutual
/-- Model of `ImportCollector`: every import statement contributes one
`ImportDefinition` per imported name, in traversal order; function bodies
are visited too. -/
def impStmt (acc : List ImportDefinition) : PyStmt → List ImportDefinition
  | .imprt names =>
      acc ++ names.map (fun n => ⟨n.1, n.2.getD n.1⟩)
  | .fromImport m names =>
      acc ++ names.map (fun n =>
        match m with
        | some mod => ⟨mod ++ "." ++ n.1, n.2.getD n.1⟩
        | Option.none => ⟨n.1, n.2.getD n.1⟩)
  | .functionDef _ _ body => impStmtList acc body
  | _ => acc

/-- Fold `impStmt` over a statement list. -/
def impStmtList (acc : List ImportDefinition) : PyStmtList → List ImportDefinition
  | .nil => acc
  | .cons s rest => impStmtList (impStmt acc s) rest
end

mutual
/-- Model of `ImportUsageAnalyzer.visit_Name` / `visit_Attribute`: the identifiers
referenced in load context (bare names and attribute roots). -/
def usedNamesExpr (acc : List String) : PyExpr → List String
  | .name id => acc ++ [id]
  | .attr e _ =>
      let acc1 := match e with
        | .name id => acc ++ [id]
        | _ => acc
      usedNamesExpr acc1 e
  | .const _ => acc
  | .listE es => usedNamesExprList acc es
  | .subscript v i => usedNamesExpr (usedNamesExpr acc v) i
  | .call f args kws => usedNamesKwList (usedNamesExprList (usedNamesExpr acc f) args) kws

/-- Fold over an expression list. -/
def usedNamesExprList (acc : List String) : PyExprList → List String
  | .nil => acc
  | .cons e rest => usedNamesExprList (usedNamesExpr acc e) rest

/-- Fold over keyword arguments. -/
def usedNamesKwList (acc : List String) : PyKwList → List String
  | .nil => acc
  | .cons _ v rest => usedNamesKwList (usedNamesExpr acc v) rest
end

/-- Assignment targets are store context: a bare name target contributes
nothing, while the sub-expressions of attribute/subscript targets are loads. -/
def usedNamesTarget (acc : List String) : PyExpr → List String
  | .name _ => acc
  | .attr e _ => usedNamesExpr acc e
  | .subscript v i => usedNamesExpr (usedNamesExpr acc v) i
  | e => usedNamesExpr acc e

/-- Fold `usedNamesTarget` over assignment targets. -/
def usedNamesTargets (acc : List String) : PyExprList → List String
  | .nil => acc
  | .cons e rest => usedNamesTargets (usedNamesTarget acc e) rest

mutual
/-- Referenced identifiers of a statement (decorators of a function
definition are visited, its name is not a `Name` node). -/
def usedNamesStmt (acc : List String) : PyStmt → List String
  | .expr e => usedNamesExpr acc e
  | .assign targets value => usedNamesExpr (usedNamesTargets acc targets) value
  | .imprt _ => acc
  | .fromImport _ _ => acc
  | .ret e =>
      match e with
      | some e2 => usedNamesExpr acc e2
      | Option.none => acc
  | .functionDef _ decs body => usedNamesStmtList (usedNamesExprList acc decs) body

/-- Fold `usedNamesStmt` over a statement list. -/
def usedNamesStmtList (acc : List String) : PyStmtList → List String
  | .nil => acc
  | .cons s rest => usedNamesStmtList (usedNamesStmt acc s) rest
end

/-- Model of `ImportUsageAnalyzer.get_used_imports` on one parsed function source:
keep the imports whose alias is referenced. -/
def get_used_imports (imports : List ImportDefinition) (src : PyStmt) :
    List ImportDefinition :=
  imports.filter (fun imp => decide (imp.alias ∈ usedNamesStmt [] src))

mutual
/-- Model of `FunctionDefinitionVisitor`: record every function definition (any
nesting depth) under its name, most recently visited definition winning,
with the definition's own tree standing for its captured source text. -/
def collectFunsStmt (acc : List (String × PyStmt)) : PyStmt → List (String × PyStmt)
  | .functionDef nm decs body =>
      collectFunsStmtList (insertReplace acc nm (.functionDef nm decs body)) body
  | _ => acc

/-- Fold `collectFunsStmt` over a statement list. -/
def collectFunsStmtList (acc : List (String × PyStmt)) : PyStmtList → List (String × PyStmt)
  | .nil => acc
  | .cons s rest => collectFunsStmtList (collectFunsStmt acc s) rest
end

/-- Add a call target to the current function's entry of the call map
(`self.function_calls[current].add(target)`); the entry always exists,
having been created when the enclosing definition was visited. -/
def addCall : List (String × List String) → String → String → List (String × List String)
  | [], _, _ => []
  | (k, ts) :: rest, fn, t =>
      if k = fn then (k, if t ∈ ts then ts else ts ++ [t]) :: rest
      else (k, ts) :: addCall rest fn t

mutual
/-- Model of `FunctionCallVisitor.visit_Call`: record a bare-name target, or
`receiver.attr` when the receiver is a bare name, then keep visiting the
children. -/
def callsExpr (cur : Option String) (acc : List (String × List String)) :
    PyExpr → List (String × List String)
  | .call f args kws =>
      let acc1 :=
        match cur, f with
        | some c, .name id => addCall acc c id
        | some c, .attr (.name r) a => addCall acc c (r ++ "." ++ a)
        | _, _ => acc
      callsKwList cur (callsExprList cur (callsExpr cur acc1 f) args) kws
  | .attr e _ => callsExpr cur acc e
  | .name _ => acc
  | .const _ => acc
  | .listE es => callsExprList cur acc es
  | .subscript v i => callsExpr cur (callsExpr cur acc v) i

/-- Fold over an expression list. -/
def callsExprList (cur : Option String) (acc : List (String × List String)) :
    PyExprList → List (String × List String)
  | .nil => acc
  | .cons e rest => callsExprList cur (callsExpr cur acc e) rest

/-- Fold over keyword arguments. -/
def callsKwList (cur : Option String) (acc : List (String × List String)) :
    PyKwList → List (String × List String)
  | .nil => acc
  | .cons _ v rest => callsKwList cur (callsExpr cur acc v) rest
end

mutual
/-- Model of `FunctionCallVisitor.visit_FunctionDef`: create the (empty) entry for
the function, then visit its decorators and body with it as the current
function; module-level calls (no current function) are not recorded. -/
def callsStmt (cur : Option String) (acc : List (String × List String)) :
    PyStmt → List (String × List String)
  | .expr e => callsExpr cur acc e
  | .assign targets value => callsExpr cur (callsExprList cur acc targets) value
  | .imprt _ => acc
  | .fromImport _ _ => acc
  | .ret e =>
      match e with
      | some e2 => callsExpr cur acc e2
      | Option.none => acc
  | .functionDef nm decs body =>
      let acc1 := insertReplace acc nm []
      let acc2 := callsExprList (some nm) acc1 decs
      callsStmtList (some nm) acc2 body

/-- Fold `callsStmt` over a statement list. -/
def callsStmtList (cur : Option String) (acc : List (String × List String)) :
    PyStmtList → List (String × List String)
  | .nil => acc
  | .cons s rest => callsStmtList cur (callsStmt cur acc s) rest
end

mutual
/-- Model of `EnvVarDetector`: the two call shapes `os.getenv(<str>, ...)` and
`<..>.environ.get(<str>, ...)`, plus the subscript shape
`os.environ[<str>]`; every child is still visited. -/
def envExpr (acc : List String) : PyExpr → List String
  | .call f args kws =>
      let acc1 :=
        match f with
        | .attr (.name o) m =>
            if o = "os" ∧ m = "getenv" then
              match args with
              | .cons (.const (.str s)) _ => addStr acc s
              | _ => acc
            else acc
        | .attr (.attr _ e2) m =>
            if e2 = "environ" ∧ m = "get" then
              match args with
              | .cons (.const (.str s)) _ => addStr acc s
              | _ => acc
            else acc
        | _ => acc
      envKwList (envExprList (envExpr acc1 f) args) kws
  | .subscript v i =>
      let acc1 :=
        match v, i with
        | .attr (.name o) e2, .const (.str s) =>
            if o = "os" ∧ e2 = "environ" then addStr acc s else acc
        | _, _ => acc
      envExpr (envExpr acc1 v) i
  | .attr e _ => envExpr acc e
  | .name _ => acc
  | .const _ => acc
  | .listE es => envExprList acc es

/-- Fold over an expression list. -/
def envExprList (acc : List String) : PyExprList → List String
  | .nil => acc
  | .cons e rest => envExprList (envExpr acc e) rest

/-- Fold over keyword arguments. -/
def envKwList (acc : List String) : PyKwList → List String
  | .nil => acc
  | .cons _ v rest => envKwList (envExpr acc v) rest
end

mutual
/-- Environment variables read anywhere in a statement. -/
def envStmt (acc : List String) : PyStmt → List String
  | .expr e => envExpr acc e
  | .assign targets value => envExpr (envExprList acc targets) value
  | .imprt _ => acc
  | .fromImport _ _ => acc
  | .ret e =>
      match e with
      | some e2 => envExpr acc e2
      | Option.none => acc
  | .functionDef _ decs body => envStmtList (envExprList acc decs) body

/-- Fold `envStmt` over a statement list. -/
def envStmtList (acc : List String) : PyStmtList → List String
  | .nil => acc
  | .cons s rest => envStmtList (envStmt acc s) rest
end

/-- Model of `DatabaseDetector.db_modules`. -/
def dbModulesDetector : List String :=
  ["psycopg2", "mysql", "sqlite3", "sqlalchemy", "pymongo",
   "redis", "elasticsearch", "cassandra", "neo4j", "db"]

/-- Model of `DatabaseDetector.visit_Call`'s characteristic method names. -/
def dbMethodNames : List String :=
  ["connect", "cursor", "execute", "query", "commit", "rollback"]

mutual
/-- Model of `DatabaseDetector` on expressions: an attribute call whose attribute is
a characteristic database method name flags usage; children are visited. -/
def dbExpr : PyExpr → Bool
  | .call f args kws =>
      (match f with
       | .attr _ m => dbMethodNames.contains m
       | _ => false)
      || dbExpr f || dbExprList args || dbKwList kws
  | .attr e _ => dbExpr e
  | .subscript v i => dbExpr v || dbExpr i
  | .listE es => dbExprList es
  | .name _ => false
  | .const _ => false

/-- Any expression of the list flags database usage. -/
def dbExprList : PyExprList → Bool
  | .nil => false
  | .cons e rest => dbExpr e || dbExprList rest

/-- Any keyword value flags database usage. -/
def dbKwList : PyKwList → Bool
  | .nil => false
  | .cons _ v rest => dbExpr v || dbKwList rest
end

mutual
/-- Model of `DatabaseDetector` on statements: an import (either form) whose module
name contains a database-ecosystem keyword flags usage. -/
def dbStmt : PyStmt → Bool
  | .imprt names =>
      names.any (fun n => dbModulesDetector.any (fun kw => subMatch kw (strLower n.1)))
  | .fromImport m _ =>
      (match m with
       | some mod => dbModulesDetector.any (fun kw => subMatch kw (strLower mod))
       | Option.none => false)
  | .expr e => dbExpr e
  | .assign targets value => dbExprList targets || dbExpr value
  | .ret e =>
      (match e with
       | some e2 => dbExpr e2
       | Option.none => false)
  | .functionDef _ decs body => dbExprList decs || dbStmtList body

/-- Any statement of the list flags database usage. -/
def dbStmtList : PyStmtList → Bool
  | .nil => false
  | .cons s rest => dbStmt s || dbStmtList rest
end

/- ----------------------------------------------------------------------
`FlaskRouteVisitor` and `FunctionDefinitionVisitor` route matching.
---------------------------------------------------------------------- -/

/-- The data read off one matching route decorator. -/
structure RouteMatch where
  path : PyVal
  methods : List PyVal
  app_name : String
deriving DecidableEq, Repr

/-- The constant elements collected from a `methods=[...]` list display
(`elt.value` is appended whatever its type). -/
def collectConsts : PyExprList → List PyVal
  | .nil => []
  | .cons (.const v) r => v :: collectConsts r
  | .cons _ r => collectConsts r

/-- The `methods` keyword scan: start from `['GET']`; each keyword named
`methods` whose value is a list display replaces the current value with the
collected constants (a non-list value leaves it unchanged). -/
def extractMethodsK : PyKwList → List PyVal → List PyVal
  | .nil, ms => ms
  | .cons arg value rest, ms =>
      extractMethodsK rest
        (if arg = some "methods" then
          match value with
          | .listE elts => collectConsts elts
          | _ => ms
        else ms)

/-- Model of `FlaskRouteVisitor.visit_FunctionDef`, for a single decorator: it must
be a call on `<name>.route` with the receiver a known app or blueprint;
the first positional argument supplies the path when it is a constant, and
the route is emitted only when that path is truthy. -/
def decoratorRoute (apps bps : List String) (d : PyExpr) : Option RouteMatch :=
  match d with
  | .call (.attr (.name app_name) attrName) args kws =>
      if attrName = "route" ∧ (app_name ∈ apps ∨ app_name ∈ bps) then
        let path : Option PyVal :=
          match args with
          | .cons (.const v) _ => some v
          | _ => Option.none
        let methods := extractMethodsK kws [PyVal.str "GET"]
        match path with
        | some p => if pyTruthy p then some ⟨p, methods, app_name⟩ else Option.none
        | Option.none => Option.none
      else Option.none
  | _ => Option.none

/-- One extracted route: name, path, methods, captured source (as its parse
tree), file, owning symbol. -/
structure RouteRec where
  name : String
  path : PyVal
  methods : List PyVal
  src : PyStmt
  file_path : String
  app_name : String

/-- All routes contributed by the decorator list of one function definition
(the loop appends one route per matching decorator). -/
def routesOfDecs (apps bps : List String) (fp fname : String) (src : PyStmt) :
    PyExprList → List RouteRec
  | .nil => []
  | .cons d rest =>
      (match decoratorRoute apps bps d with
       | some m => [⟨fname, m.path, m.methods, src, fp, m.app_name⟩]
       | Option.none => []) ++ routesOfDecs apps bps fp fname src rest

mutual
/-- Model of `FlaskRouteVisitor` over a statement: function definitions contribute
their matching decorators and are then recursed into. -/
def routesOfStmt (apps bps : List String) (fp : String) : PyStmt → List RouteRec
  | .functionDef nm decs body =>
      routesOfDecs apps bps fp nm (.functionDef nm decs body) decs
        ++ routesOfStmtList apps bps fp body
  | _ => []

/-- Fold `routesOfStmt` over a statement list. -/
def routesOfStmtList (apps bps : List String) (fp : String) : PyStmtList → List RouteRec
  | .nil => []
  | .cons s rest => routesOfStmt apps bps fp s ++ routesOfStmtList apps bps fp rest
end

/- ----------------------------------------------------------------------
`FlaskApplicationParser._resolve_all_dependencies`.
---------------------------------------------------------------------- -/

/-- The fixed built-in exclusion set of `_resolve_all_dependencies`. -/
def builtinNames : List String :=
  ["print", "len", "str", "int", "float", "list", "dict", "set", "bool", "type",
   "open", "sum", "min", "max", "sorted", "enumerate", "zip", "filter", "map"]

/-- Model of `all_function_calls.get(function_name, set())`. -/
def depsOf (calls : List (String × List String)) (fn : String) : List String :=
  match List.lookup fn calls with
  | some ds => ds
  | Option.none => []

/-- Invariant carried by the resolver: visited only grows, and everything
resolved was already resolved or is a non-built-in catalog name. -/
def ResolveInv (catalog resolved visited : List String)
    (p : List String × List String) : Prop :=
  (∀ x, x ∈ visited → x ∈ p.2) ∧
  (∀ x, x ∈ p.1 → x ∈ resolved ∨ (x ∈ catalog ∧ x ∉ builtinNames))

/-- Visiting a new catalog name strictly shrinks the unvisited catalog. -/
def filter_visited_le :
    ∀ (catalog v : List String) (d : String),
      (catalog.filter (fun c => decide (c ∉ d :: v))).length ≤
        (catalog.filter (fun c => decide (c ∉ v))).length := by
  intro catalog v d
  induction catalog with
  | nil => simp
  | cons c rest ih =>
      simp only [List.filter]
      by_cases h1 : c ∈ v
      · have e1 : decide (c ∉ d :: v) = false := by simp [h1]
        have e2 : decide (c ∉ v) = false := by simp [h1]
        rw [e1, e2]
        exact ih
      · by_cases h2 : c = d
        · have e1 : decide (c ∉ d :: v) = false := by simp [h2]
          have e2 : decide (c ∉ v) = true := by simp [h1]
          rw [e1, e2]
          exact Nat.le_succ_of_le ih
        · have e1 : decide (c ∉ d :: v) = true := by simp [h1, h2]
          have e2 : decide (c ∉ v) = true := by simp [h1]
          rw [e1, e2]
          simpa using ih

/-- Strict version of `filter_visited_le` when the new name is an
unvisited catalog member. -/
def filter_visited_lt :
    ∀ (catalog v : List String) (d : String), d ∈ catalog → d ∉ v →
      (catalog.filter (fun c => decide (c ∉ d :: v))).length <
        (catalog.filter (fun c => decide (c ∉ v))).length := by
  intro catalog v d hd hdv
  induction catalog with
  | nil => cases hd
  | cons c rest ih =>
      simp only [List.filter]
      by_cases h2 : c = d
      · have e1 : decide (c ∉ d :: v) = false := by simp [h2]
        have e2 : decide (c ∉ v) = true := by simp [h2, hdv]
        rw [e1, e2]
        exact Nat.lt_succ_of_le (filter_visited_le rest v d)
      · have hd2 : d ∈ rest := by
          cases hd with
          | head => exact absurd rfl h2
          | tail _ h => exact h
        by_cases h1 : c ∈ v
        · have e1 : decide (c ∉ d :: v) = false := by simp [h1]
          have e2 : decide (c ∉ v) = false := by simp [h1]
          rw [e1, e2]
          exact ih hd2
        · have e1 : decide (c ∉ d :: v) = true := by simp [h1, h2]
          have e2 : decide (c ∉ v) = true := by simp [h1]
          rw [e1, e2]
          exact Nat.succ_lt_succ (ih hd2)

/-- Subsets shrink the unvisited-catalog count. -/
def filter_subset_le :
    ∀ (catalog v w : List String), (∀ x, x ∈ v → x ∈ w) →
      (catalog.filter (fun c => decide (c ∉ w))).length ≤
        (catalog.filter (fun c => decide (c ∉ v))).length := by
  intro catalog v w hvw
  induction catalog with
  | nil => simp
  | cons c rest ih =>
      simp only [List.filter]
      by_cases h1 : c ∈ w
      · have e1 : decide (c ∉ w) = false := by simp [h1]
        rw [e1]
        by_cases h2 : c ∈ v
        · have e2 : decide (c ∉ v) = false := by simp [h2]
          rw [e2]; exact ih
        · have e2 : decide (c ∉ v) = true := by simp [h2]
          rw [e2]; exact Nat.le_succ_of_le ih
      · have h2 : c ∉ v := fun hc => h1 (hvw c hc)
        have e1 : decide (c ∉ w) = true := by simp [h1]
        have e2 : decide (c ∉ v) = true := by simp [h2]
        rw [e1, e2]
        exact Nat.succ_le_succ ih

/-- The worklist loop of `_resolve_all_dependencies` (lines 342-351): for
each direct dependency, skip it when already resolved or a built-in; when
it is a catalog name, add it to the resolved set and expand it (the
callee's entry guard `if function_name in visited: return` is evaluated at
the call site).  The returned pair is (resolved, visited), with the
invariant carried in the subtype. -/
def resolveAuxS (calls : List (String × List String)) (catalog : List String) :
    (ds resolved visited : List String) →
      {p : List String × List String // ResolveInv catalog resolved visited p}
  | [], resolved, visited =>
      ⟨(resolved, visited), fun _ hx => hx, fun _ hx => Or.inl hx⟩
  | d :: ds, resolved, visited =>
      if hr : d ∈ resolved then
        let ⟨p, hp⟩ := resolveAuxS calls catalog ds resolved visited
        ⟨p, hp⟩
      else if hb : d ∈ builtinNames then
        let ⟨p, hp⟩ := resolveAuxS calls catalog ds resolved visited
        ⟨p, hp⟩
      else if hc : d ∈ catalog then
        if hv : d ∈ visited then
          let ⟨p, hp⟩ := resolveAuxS calls catalog ds (d :: resolved) visited
          ⟨p, hp.1, by
            intro x hx
            rcases hp.2 x hx with hm | h2
            · rcases List.mem_cons.mp hm with rfl | hm2
              · exact Or.inr ⟨hc, hb⟩
              · exact Or.inl hm2
            · exact Or.inr h2⟩
        else
          match resolveAuxS calls catalog (depsOf calls d) (d :: resolved) (d :: visited) with
          | ⟨(r1, v1), hin⟩ =>
            let ⟨p, hout⟩ := resolveAuxS calls catalog ds r1 v1
            ⟨p, by
              intro x hx
              exact hout.1 x (hin.1 x (List.Mem.tail d hx)),
              by
                intro x hx
                rcases hout.2 x hx with hm | h2
                · rcases hin.2 x hm with hm2 | h2
                  · rcases List.mem_cons.mp hm2 with rfl | hm3
                    · exact Or.inr ⟨hc, hb⟩
                    · exact Or.inl hm3
                  · exact Or.inr h2
                · exact Or.inr h2⟩
      else
        let ⟨p, hp⟩ := resolveAuxS calls catalog ds resolved visited
        ⟨p, hp⟩
termination_by ds resolved visited =>
  ((catalog.filter (fun c => decide (c ∉ visited))).length, ds.length)
decreasing_by
  all_goals first
    | exact Prod.Lex.right _ (by simp)
    | exact Prod.Lex.left _ _ (filter_visited_lt catalog visited d hc hv)
    | exact Prod.Lex.left _ _
        (Nat.lt_of_le_of_lt
          (filter_subset_le catalog (d :: visited) v1 (fun x hx => hin.1 x hx))
          (filter_visited_lt catalog visited d hc hv))

/-- The pair computed by the resolver loop, without the invariant. -/
def resolveAux (calls : List (String × List String)) (catalog : List String)
    (ds resolved visited : List String) : List String × List String :=
  (resolveAuxS calls catalog ds resolved visited).val

/-- Model of `_resolve_all_dependencies(function_name)` called with fresh state:
`resolved = {}`, `visited = {function_name}`, worklist its direct
dependencies. -/
def resolve_all_dependencies (calls : List (String × List String))
    (catalog : List String) (fn : String) : List String :=
  (resolveAux calls catalog (depsOf calls fn) [] [fn]).1

/- ----------------------------------------------------------------------
`FlaskApplicationParser`: import slicing and descriptor assembly.
---------------------------------------------------------------------- -/

/-- Model of `_check_for_database_usage`: run `DatabaseDetector` on the re-parsed
route source (re-parsing cannot fail in the embedding, so the
exception-to-`False` path of lines 326-327 is unreachable). -/
def check_for_database_usage (src : PyStmt) : Bool := dbStmt src

/-- The essential framework prefixes of `_get_imports_used_by_function`. -/
def essentialModulePrefixes : List String := ["flask", "werkzeug", "jinja2"]

/-- The convenience-helper names of `_get_imports_used_by_function`. -/
def commonPatterns : List String :=
  ["request", "jsonify", "render_template", "redirect", "url_for", "session"]

/-- The database-driver/ORM keywords of the import slicer (note:
distinct from `DatabaseDetector.db_modules`). -/
def dbModulesImports : List String :=
  ["db", "database", "models", "sqlalchemy", "psycopg2", "pymongo", "redis"]

/-- Model of `_get_imports_for_dependency_functions`: resolve the dependency closure
and, for each dependency whose source is in the catalog, add the imports
its body uses (the source is a parse tree, so the textual fallback
`_detect_common_imports_in_source` for unparsable sources is unreachable
in the embedding). -/
def get_imports_for_dependency_functions (fn : String)
    (all_imports : List ImportDefinition) (af : List (String × PyStmt))
    (acs : List (String × List String)) : List ImportDefinition :=
  let dependencies := resolve_all_dependencies acs (af.map Prod.fst) fn
  dependencies.foldl
    (fun acc dep =>
      match List.lookup dep af with
      | some src => (get_used_imports all_imports src).foldl addIfAbsent acc
      | Option.none => acc)
    []

/-- The regex helper `_is_pattern_used_in_function` runs fixed regexes over the route's
source *text*, which the embedding does not carry; it is therefore passed
in as an oracle `po : pattern → result` per route. -/
def get_imports_used_by_function (all_imports : List ImportDefinition)
    (route_src : PyStmt) (route_app_name route_name : String)
    (af : List (String × PyStmt)) (acs : List (String × List String))
    (po : String → Bool) : List ImportDefinition :=
  let used0 := get_used_imports all_imports route_src
  let used1 := all_imports.foldl
    (fun a imp =>
      if essentialModulePrefixes.any (fun p => strStartsWith (strLower imp.module) p)
      then addIfAbsent a imp else a)
    used0
  let app_imports := all_imports.filter (fun imp => decide (route_app_name = imp.alias))
  let used2 := app_imports.foldl addIfAbsent used1
  let used3 := commonPatterns.foldl
    (fun a pattern2 =>
      let pattern_imports := all_imports.filter
        (fun imp => decide (imp.alias = pattern2) ||
          (strEndsWith imp.module ("." ++ pattern2) && decide (imp.alias = pattern2)))
      pattern_imports.foldl
        (fun a2 imp => if po pattern2 then addIfAbsent a2 imp else a2) a)
    used2
  let used4 :=
    if check_for_database_usage route_src then
      (all_imports.filter
        (fun imp => dbModulesImports.any (fun kw => subMatch kw (strLower imp.module)))).foldl
        addIfAbsent used3
    else used3
  let dependency_imports := get_imports_for_dependency_functions route_name all_imports af acs
  dependency_imports.foldl addIfAbsent used4

/-- Model of `ServerlessFunction` (`models.py`) with its serialized fields; the
dictionary emitted by `_function_to_dict` is modelled by the same record. -/
structure ServerlessFunction where
  name : String
  path : PyVal
  methods : List PyVal
  src : PyStmt
  app_name : String
  dependencies : List String
  dependency_sources : List (String × PyStmt)
  imports : List ImportDefinition
  env_vars : List String
  file_path : String
  requires_db : Bool

/-- The per-route body of `extract_functions` (lines 162-191): build the
descriptor, slice imports when the route's file was indexed, resolve
dependencies when the route has a call-graph entry, and set `env_vars` to
the parser's global set. -/
def build_function (ibf : List (String × List ImportDefinition))
    (af : List (String × PyStmt)) (acs : List (String × List String))
    (env : List String) (po : String → RouteRec → Bool) (route : RouteRec) :
    ServerlessFunction :=
  let base : ServerlessFunction :=
    { name := route.name, path := route.path, methods := route.methods,
      src := route.src, app_name := route.app_name,
      dependencies := [], dependency_sources := [], imports := [],
      env_vars := [], file_path := route.file_path,
      requires_db := check_for_database_usage route.src }
  let f1 :=
    match List.lookup route.file_path ibf with
    | some all_imports =>
        let sliced := get_imports_used_by_function all_imports route.src
          route.app_name route.name af acs (fun pattern2 => po pattern2 route)
        { base with imports := sliced }
    | Option.none => base
  let f2 :=
    match List.lookup route.name acs with
    | some _ =>
        let deps := resolve_all_dependencies acs (af.map Prod.fst) route.name
        { f1 with dependencies := deps,
                  dependency_sources :=
                    deps.filterMap (fun dep => (List.lookup dep af).map (fun s => (dep, s))) }
    | Option.none => f1
  { f2 with env_vars := env }

/-- Model of `extract_functions`: one descriptor per extracted route. -/
def extract_functions (routes : List RouteRec)
    (ibf : List (String × List ImportDefinition)) (af : List (String × PyStmt))
    (acs : List (String × List String)) (env : List String)
    (po : String → RouteRec → Bool) : List ServerlessFunction :=
  routes.map (build_function ibf af acs env po)

/-- Model of `_function_to_dict`: replace an empty method list by `["GET"]` and
recompute `dependency_sources` from the catalog. -/
def function_to_dict (af : List (String × PyStmt)) (f : ServerlessFunction) :
    ServerlessFunction :=
  let ms := if f.methods = [] then [PyVal.str "GET"] else f.methods
  { f with methods := ms,
           dependency_sources :=
             f.dependencies.filterMap (fun dep => (List.lookup dep af).map (fun s => (dep, s))) }

/- ----------------------------------------------------------------------
`FlaskApplicationParser.parse` (phases 1 and 2, then assembly).
---------------------------------------------------------------------- -/

/-- Phase 1, `find_flask_apps`: accumulate app/blueprint symbols over all
files. -/
def find_flask_symbols (files : List (String × PyStmtList)) :
    List String × List String :=
  files.foldl (fun ab f => symStmtList ab f.2) ([], [])

/-- The global environment-variable set accumulated by `analyze_files`
(`self.env_vars.update(env_detector.env_vars)` per file). -/
def global_env_vars (files : List (String × PyStmtList)) : List String :=
  files.foldl (fun acc f => setUnion acc (envStmtList [] f.2)) []

/-- Phase 2 plus assembly, `parse`: discover symbols, index every file,
extract the routes, and emit one serialized descriptor per route. -/
def parse_model (files : List (String × PyStmtList))
    (po : String → RouteRec → Bool) : List ServerlessFunction :=
  let ab := find_flask_symbols files
  let ibf := files.map (fun f => (f.1, impStmtList [] f.2))
  let af := files.foldl (fun acc f => collectFunsStmtList acc f.2) []
  let routes := files.foldl (fun acc f => acc ++ routesOfStmtList ab.1 ab.2 f.1 f.2) []
  let acs := files.foldl (fun acc f => callsStmtList Option.none acc f.2) []
  let env := global_env_vars files
  (extract_functions routes ibf af acs env po).map (function_to_dict af)

/- ----------------------------------------------------------------------
Statement-level predicates and concrete example inputs.
---------------------------------------------------------------------- -/

/-- No first-pattern match starts at any position of `t`. -/
def NM1 (t : List Char) : Prop := ∀ k, tryMatch1 (t.drop k) = Option.none

/-- No second-pattern match starts at any position of `t`. -/
def NM2 (t : List Char) : Prop := ∀ k, tryMatch2 (t.drop k) = Option.none

/-- Does the keyword list carry a keyword literally named `methods`? -/
def hasMethodsKw : PyKwList → Bool
  | .nil => false
  | .cons arg _ rest => arg == some "methods" || hasMethodsKw rest

/-- Is the first positional argument a constant node? -/
def headIsConst : PyExprList → Bool
  | .cons (.const _) _ => true
  | _ => false

/-- A route decorator `@app.route("/a")`. -/
def exDecorator : PyExpr :=
  .call (.attr (.name "app") "route") (.cons (.const (.str "/a")) .nil) .nil

/-- A self-recursive route `def foo(): return foo()` decorated with
`@app.route("/a")`. -/
def exFooSrc : PyStmt :=
  .functionDef "foo" (.cons exDecorator .nil)
    (.cons (.ret (some (.call (.name "foo") .nil .nil))) .nil)

/-- The route record extracted for `exFooSrc` in file `app.py`. -/
def exFooRoute : RouteRec :=
  ⟨"foo", .str "/a", [.str "GET"], exFooSrc, "app.py", "app"⟩

/-- A route body `conn.execute("SELECT 1")` whose file imports `sqlite3`
at module scope without the route's body referencing that alias. -/
def exSqliteSrc : PyStmt :=
  .functionDef "get_data" (.cons (.call (.attr (.name "app") "route")
      (.cons (.const (.str "/data")) .nil) .nil) .nil)
    (.cons (.expr (.call (.attr (.name "conn") "execute")
      (.cons (.const (.str "SELECT 1")) .nil) .nil)) .nil)

/-- The route record extracted for `exSqliteSrc`. -/
def exSqliteRoute : RouteRec :=
  ⟨"get_data", .str "/data", [.str "GET"], exSqliteSrc, "app.py", "app"⟩

/-- A route body `return os.path` (its file declares `import os` twice). -/
def exDupSrc : PyStmt :=
  .functionDef "get_data" (.cons (.call (.attr (.name "app") "route")
      (.cons (.const (.str "/data")) .nil) .nil) .nil)
    (.cons (.ret (some (.attr (.name "os") "path"))) .nil)

/-- The route record extracted for `exDupSrc`. -/
def exDupRoute : RouteRec :=
  ⟨"get_data", .str "/data", [.str "GET"], exDupSrc, "app.py", "app"⟩

/-- A single-file program: `app = Flask(__name__)` and a route `def ping()`
reading `os.getenv("MODE")`. -/
def exEnvFile : PyStmtList :=
  .cons (.assign (.cons (.name "app") .nil)
            (.call (.name "Flask") (.cons (.name "__name__") .nil) .nil))
    (.cons (.functionDef "ping" (.cons exDecorator .nil)
        (.cons (.ret (some (.call (.attr (.name "os") "getenv")
            (.cons (.const (.str "MODE")) .nil) .nil))) .nil))
      .nil)

/- ----------------------------------------------------------------------
Theorems.  First: the `re.sub` scanner.
---------------------------------------------------------------------- -/

theorem subst1_nil : subst1 [] = [] := by
  simp [subst1]

theorem subst1_cons_some (c : Char) (rest w r : List Char)
    (h : tryMatch1 (c :: rest) = some (w, r)) :
    subst1 (c :: rest) = repl1 w ++ subst1 r := by
  rw [subst1]
  split
  · rename_i w2 r2 h2
    rw [h] at h2
    injection h2 with h3
    have hw := congrArg Prod.fst h3
    have hr := congrArg Prod.snd h3
    simp only at hw hr
    rw [hw, hr]
  · rename_i h2
    rw [h] at h2
    cases h2

theorem subst1_cons_none (c : Char) (rest : List Char)
    (h : tryMatch1 (c :: rest) = Option.none) :
    subst1 (c :: rest) = c :: subst1 rest := by
  rw [subst1]
  split
  · rename_i w2 r2 h2
    rw [h] at h2
    cases h2
  · rfl

theorem subst2_nil : subst2 [] = [] := by
  simp [subst2]

theorem subst2_cons_some (c : Char) (rest w1 w2 r : List Char)
    (h : tryMatch2 (c :: rest) = some (w1, w2, r)) :
    subst2 (c :: rest) = repl2 w1 w2 ++ subst2 r := by
  rw [subst2]
  split
  · rename_i v1 v2 r2 h2
    rw [h] at h2
    injection h2 with h3
    have hw1 := congrArg Prod.fst h3
    have h4 := congrArg Prod.snd h3
    simp only at hw1 h4
    have hw2 := congrArg Prod.fst h4
    have hr := congrArg Prod.snd h4
    simp only at hw2 hr
    rw [hw1, hw2, hr]
  · rename_i h2
    rw [h] at h2
    cases h2

theorem subst2_cons_none (c : Char) (rest : List Char)
    (h : tryMatch2 (c :: rest) = Option.none) :
    subst2 (c :: rest) = c :: subst2 rest := by
  rw [subst2]
  split
  · rename_i v1 v2 r2 h2
    rw [h] at h2
    cases h2
  · rfl

theorem takeUpper_spec (t : List Char) :
    t = (takeUpper t).1 ++ (takeUpper t).2 ∧ (∀ c ∈ (takeUpper t).1, isUp c = true) := by
  induction t with
  | nil => simp [takeUpper]
  | cons a t ih =>
      by_cases ha : isUp a
      · simp only [takeUpper, ha, if_true]
        constructor
        · simpa using ih.1
        · intro c hc
          simp at hc
          rcases hc with rfl | hc
          · exact ha
          · exact ih.2 c hc
      · simp [takeUpper, ha]

theorem takeUpper_append (w : List Char) (c0 : Char) (r : List Char)
    (hw : ∀ c ∈ w, isUp c = true) (hc0 : isUp c0 = false) :
    takeUpper (w ++ c0 :: r) = (w, c0 :: r) := by
  induction w with
  | nil => simp [takeUpper, hc0]
  | cons a w ih =>
      have ha : isUp a = true := hw a (by simp)
      simp only [List.cons_append, takeUpper, ha, if_true]
      simp only [List.append_eq]
      rw [ih (fun c hc => hw c (by simp [hc]))]

theorem stripPat_append (t : List Char) : stripPat (patChars ++ t) = some t := by
  unfold stripPat
  have h9 : patChars.length = 9 := by simp [patChars]
  rw [if_pos (by rw [← h9, List.take_left])]
  rw [← h9, List.drop_left]

theorem stripPat_ne_m (c : Char) (l : List Char) (hc : c ≠ 'm') :
    stripPat (c :: l) = Option.none := by
  unfold stripPat
  rw [if_neg]
  intro h
  have := congrArg (fun x => x.head?) h
  simp [patChars, List.take] at this
  exact hc this

theorem tryMatch1_ne_m (c : Char) (l : List Char) (hc : c ≠ 'm') :
    tryMatch1 (c :: l) = Option.none := by
  unfold tryMatch1
  rw [stripPat_ne_m c l hc]

theorem tryMatch2_ne_m (c : Char) (l : List Char) (hc : c ≠ 'm') :
    tryMatch2 (c :: l) = Option.none := by
  unfold tryMatch2
  rw [stripPat_ne_m c l hc]

theorem tryMatch1_nil : tryMatch1 [] = Option.none := by
  unfold tryMatch1 stripPat
  rw [if_neg]
  intro h
  have := congrArg List.length h
  simp [patChars] at this

theorem tryMatch2_nil : tryMatch2 [] = Option.none := by
  unfold tryMatch2 stripPat
  rw [if_neg]
  intro h
  have := congrArg List.length h
  simp [patChars] at this

theorem tryMatch1_some (l w r : List Char) (h : tryMatch1 l = some (w, r)) :
    l = patChars ++ (w ++ ']' :: r) ∧ w ≠ [] ∧ ∀ c ∈ w, isUp c = true := by
  unfold tryMatch1 at h
  cases hs : stripPat l with
  | none => rw [hs] at h; cases h
  | some rest =>
      rw [hs] at h
      simp only at h
      have hdec : l = patChars ++ rest := by
        unfold stripPat at hs
        split at hs
        · rename_i hc
          injection hs with h2
          rw [← h2, ← hc]
          exact (List.take_append_drop 9 l).symm
        · cases hs
      split at h
      · cases h
      · rename_i hne
        split at h
        · rename_i r2 hq
          injection h with h3
          have hw := congrArg Prod.fst h3
          have hr := congrArg Prod.snd h3
          simp only at hw hr
          have hspec := takeUpper_spec rest
          refine ⟨?_, ?_, ?_⟩
          · rw [hdec, hspec.1, hq, hw, hr]
          · rw [← hw]; exact hne
          · intro c hc
            rw [← hw] at hc
            exact hspec.2 c hc
        · cases h

theorem tryMatch1_mk (w r : List Char) (hw : w ≠ []) (hup : ∀ c ∈ w, isUp c = true) :
    tryMatch1 (patChars ++ (w ++ ']' :: r)) = some (w, r) := by
  unfold tryMatch1
  rw [stripPat_append]
  simp only
  rw [takeUpper_append w ']' r hup (by decide)]
  simp [hw]

theorem tryMatch2_some (l w1 w2 r : List Char) (h : tryMatch2 l = some (w1, w2, r)) :
    l = patChars ++ (w1 ++ ',' :: ' ' :: (w2 ++ ']' :: r)) ∧
      w1 ≠ [] ∧ w2 ≠ [] ∧ (∀ c ∈ w1, isUp c = true) ∧ (∀ c ∈ w2, isUp c = true) := by
  unfold tryMatch2 at h
  cases hs : stripPat l with
  | none => rw [hs] at h; cases h
  | some rest =>
      rw [hs] at h
      simp only at h
      have hdec : l = patChars ++ rest := by
        unfold stripPat at hs
        split at hs
        · rename_i hc
          injection hs with h2
          rw [← h2, ← hc]
          exact (List.take_append_drop 9 l).symm
        · cases hs
      split at h
      · cases h
      · rename_i hne
        split at h
        · rename_i rest2 hq
          split at h
          · cases h
          · rename_i hne2
            split at h
            · rename_i r2 hq2
              injection h with h3
              have hw1 := congrArg Prod.fst h3
              have h4 := congrArg Prod.snd h3
              simp only at hw1 h4
              have hw2 := congrArg Prod.fst h4
              have hr := congrArg Prod.snd h4
              simp only at hw2 hr
              have hspec := takeUpper_spec rest
              have hspec2 := takeUpper_spec rest2
              refine ⟨?_, ?_, ?_, ?_, ?_⟩
              · rw [hdec, hspec.1, hq, hw1]
                rw [show rest2 = (takeUpper rest2).1 ++ (takeUpper rest2).2 from hspec2.1]
                rw [hq2, hw2, hr]
              · rw [← hw1]; exact hne
              · rw [← hw2]; exact hne2
              · intro c hc; rw [← hw1] at hc; exact hspec.2 c hc
              · intro c hc; rw [← hw2] at hc; exact hspec2.2 c hc
            · cases h
        · cases h

theorem tryMatch2_mk (w1 w2 r : List Char) (h1 : w1 ≠ []) (h2 : w2 ≠ [])
    (hu1 : ∀ c ∈ w1, isUp c = true) (hu2 : ∀ c ∈ w2, isUp c = true) :
    tryMatch2 (patChars ++ (w1 ++ ',' :: ' ' :: (w2 ++ ']' :: r))) = some (w1, w2, r) := by
  unfold tryMatch2
  rw [stripPat_append]
  simp only
  rw [takeUpper_append w1 ',' (' ' :: (w2 ++ ']' :: r)) hu1 (by decide)]
  simp [h1, h2, takeUpper_append w2 ']' r hu2 (by decide)]

theorem patChars_cons : patChars = 'm' :: patTail := by
  simp [patChars, patTail]

theorem ne_m_of_isUp (c : Char) (h : isUp c = true) : c ≠ 'm' := by
  intro hc
  rw [hc] at h
  exact absurd h (by decide)

theorem NM1_nil : NM1 [] := by
  intro k
  simp [tryMatch1_nil]

theorem NM2_nil : NM2 [] := by
  intro k
  simp [tryMatch2_nil]

theorem NM1_cons (c : Char) (t : List Char) (hh : tryMatch1 (c :: t) = Option.none)
    (ht : NM1 t) : NM1 (c :: t) := by
  intro k
  cases k with
  | zero => simpa using hh
  | succ k => simpa using ht k

theorem NM2_cons (c : Char) (t : List Char) (hh : tryMatch2 (c :: t) = Option.none)
    (ht : NM2 t) : NM2 (c :: t) := by
  intro k
  cases k with
  | zero => simpa using hh
  | succ k => simpa using ht k

theorem NM1_append (p t : List Char) (hp : ∀ c ∈ p, c ≠ 'm') (ht : NM1 t) :
    NM1 (p ++ t) := by
  induction p with
  | nil => simpa using ht
  | cons c p ih =>
      have h2 : NM1 (p ++ t) := ih (fun d hd => hp d (by simp [hd]))
      exact NM1_cons c (p ++ t) (tryMatch1_ne_m c _ (hp c (by simp))) h2

theorem NM2_append (p t : List Char) (hp : ∀ c ∈ p, c ≠ 'm') (ht : NM2 t) :
    NM2 (p ++ t) := by
  induction p with
  | nil => simpa using ht
  | cons c p ih =>
      have h2 : NM2 (p ++ t) := ih (fun d hd => hp d (by simp [hd]))
      exact NM2_cons c (p ++ t) (tryMatch2_ne_m c _ (hp c (by simp))) h2

theorem NM1_suffix (a b : List Char) (h : NM1 (a ++ b)) : NM1 b := by
  intro k
  have h2 := h (a.length + k)
  rw [List.drop_append_eq_append_drop] at h2
  have h3 : a.length + k - a.length = k := by omega
  rw [List.drop_eq_nil_of_le (by omega), h3, List.nil_append] at h2
  exact h2

theorem tryMatch1_pat_quote (x : List Char) :
    tryMatch1 (patChars ++ quoteChar :: x) = Option.none := by
  unfold tryMatch1
  rw [stripPat_append]
  simp [takeUpper, isUp, quoteChar]

theorem tryMatch2_pat_quote (x : List Char) :
    tryMatch2 (patChars ++ quoteChar :: x) = Option.none := by
  unfold tryMatch2
  rw [stripPat_append]
  simp [takeUpper, isUp, quoteChar]

theorem patTail_ne_m : ∀ c ∈ patTail, c ≠ 'm' := by decide

theorem subst1_peel (t : List Char) (c : Char) (s : List Char)
    (h : subst1 t = c :: s) (hc : c ≠ 'm') :
    ∃ t2, t = c :: t2 ∧ subst1 t2 = s := by
  cases t with
  | nil => rw [subst1_nil] at h; cases h
  | cons d rest =>
      cases hm : tryMatch1 (d :: rest) with
      | some p =>
          obtain ⟨w, r⟩ := p
          rw [subst1_cons_some d rest w r hm] at h
          rw [repl1, patChars_cons] at h
          simp only [List.cons_append] at h
          injection h with h1 h2
          exact absurd h1.symm hc
      | none =>
          rw [subst1_cons_none d rest hm] at h
          injection h with h1 h2
          exact ⟨rest, by rw [h1], h2⟩

theorem subst2_peel (t : List Char) (c : Char) (s : List Char)
    (h : subst2 t = c :: s) (hc : c ≠ 'm') :
    ∃ t2, t = c :: t2 ∧ subst2 t2 = s := by
  cases t with
  | nil => rw [subst2_nil] at h; cases h
  | cons d rest =>
      cases hm : tryMatch2 (d :: rest) with
      | some p =>
          obtain ⟨w1, p2⟩ := p
          obtain ⟨w2, r⟩ := p2
          rw [subst2_cons_some d rest w1 w2 r hm] at h
          rw [repl2, patChars_cons] at h
          simp only [List.cons_append] at h
          injection h with h1 h2
          exact absurd h1.symm hc
      | none =>
          rw [subst2_cons_none d rest hm] at h
          injection h with h1 h2
          exact ⟨rest, by rw [h1], h2⟩

theorem subst1_peelList (p t s : List Char)
    (hp : ∀ c ∈ p, c ≠ 'm') (h : subst1 t = p ++ s) :
    ∃ t2, t = p ++ t2 ∧ subst1 t2 = s := by
  induction p generalizing t with
  | nil => exact ⟨t, by simp, by simpa using h⟩
  | cons c p ih =>
      rw [List.cons_append] at h
      obtain ⟨t2, ht, hs⟩ := subst1_peel t c (p ++ s) h (hp c (by simp))
      obtain ⟨t3, ht2, hs2⟩ := ih t2 (fun d hd => hp d (by simp [hd])) hs
      exact ⟨t3, by rw [ht, ht2, List.cons_append], hs2⟩

theorem subst2_peelList (p t s : List Char)
    (hp : ∀ c ∈ p, c ≠ 'm') (h : subst2 t = p ++ s) :
    ∃ t2, t = p ++ t2 ∧ subst2 t2 = s := by
  induction p generalizing t with
  | nil => exact ⟨t, by simp, by simpa using h⟩
  | cons c p ih =>
      rw [List.cons_append] at h
      obtain ⟨t2, ht, hs⟩ := subst2_peel t c (p ++ s) h (hp c (by simp))
      obtain ⟨t3, ht2, hs2⟩ := ih t2 (fun d hd => hp d (by simp [hd])) hs
      exact ⟨t3, by rw [ht, ht2, List.cons_append], hs2⟩

theorem pull1_subst1 (t w r : List Char)
    (h : tryMatch1 ('m' :: subst1 t) = some (w, r)) :
    ∃ t2, tryMatch1 ('m' :: t) = some (w, t2) := by
  obtain ⟨hdec, hne, hup⟩ := tryMatch1_some _ w r h
  rw [patChars_cons] at hdec
  simp only [List.cons_append] at hdec
  injection hdec with h1 h2
  have hch : ∀ c ∈ patTail ++ (w ++ [']']), c ≠ 'm' := by
    intro c hc
    rcases List.mem_append.mp hc with hc2 | hc2
    · exact patTail_ne_m c hc2
    · rcases List.mem_append.mp hc2 with hc3 | hc3
      · exact ne_m_of_isUp c (hup c hc3)
      · simp at hc3; subst hc3; decide
  have h2b : subst1 t = (patTail ++ (w ++ [']'])) ++ r := by
    rw [h2]; simp
  obtain ⟨t2, ht, hs⟩ := subst1_peelList _ t r hch h2b
  refine ⟨t2, ?_⟩
  have heq : 'm' :: t = patChars ++ (w ++ ']' :: t2) := by
    rw [ht, patChars_cons]; simp
  rw [heq]
  exact tryMatch1_mk w t2 hne hup

theorem pull1_subst2 (t w r : List Char)
    (h : tryMatch1 ('m' :: subst2 t) = some (w, r)) :
    ∃ t2, tryMatch1 ('m' :: t) = some (w, t2) := by
  obtain ⟨hdec, hne, hup⟩ := tryMatch1_some _ w r h
  rw [patChars_cons] at hdec
  simp only [List.cons_append] at hdec
  injection hdec with h1 h2
  have hch : ∀ c ∈ patTail ++ (w ++ [']']), c ≠ 'm' := by
    intro c hc
    rcases List.mem_append.mp hc with hc2 | hc2
    · exact patTail_ne_m c hc2
    · rcases List.mem_append.mp hc2 with hc3 | hc3
      · exact ne_m_of_isUp c (hup c hc3)
      · simp at hc3; subst hc3; decide
  have h2b : subst2 t = (patTail ++ (w ++ [']'])) ++ r := by
    rw [h2]; simp
  obtain ⟨t2, ht, hs⟩ := subst2_peelList _ t r hch h2b
  refine ⟨t2, ?_⟩
  have heq : 'm' :: t = patChars ++ (w ++ ']' :: t2) := by
    rw [ht, patChars_cons]; simp
  rw [heq]
  exact tryMatch1_mk w t2 hne hup

theorem pull2_subst2 (t w1 w2 r : List Char)
    (h : tryMatch2 ('m' :: subst2 t) = some (w1, w2, r)) :
    ∃ t2, tryMatch2 ('m' :: t) = some (w1, w2, t2) := by
  obtain ⟨hdec, hne1, hne2, hup1, hup2⟩ := tryMatch2_some _ w1 w2 r h
  rw [patChars_cons] at hdec
  simp only [List.cons_append] at hdec
  injection hdec with h1 h2
  have hch : ∀ c ∈ patTail ++ (w1 ++ ',' :: ' ' :: (w2 ++ [']'])), c ≠ 'm' := by
    intro c hc
    rcases List.mem_append.mp hc with hc2 | hc2
    · exact patTail_ne_m c hc2
    · rcases List.mem_append.mp hc2 with hc3 | hc3
      · exact ne_m_of_isUp c (hup1 c hc3)
      · simp at hc3
        rcases hc3 with rfl | rfl | hc4
        · decide
        · decide
        · rcases hc4 with hc5 | rfl
          · exact ne_m_of_isUp c (hup2 c hc5)
          · decide
  have h2b : subst2 t = (patTail ++ (w1 ++ ',' :: ' ' :: (w2 ++ [']']))) ++ r := by
    rw [h2]; simp
  obtain ⟨t2, ht, hs⟩ := subst2_peelList _ t r hch h2b
  refine ⟨t2, ?_⟩
  have heq : 'm' :: t = patChars ++ (w1 ++ ',' :: ' ' :: (w2 ++ ']' :: t2)) := by
    rw [ht, patChars_cons]; simp
  rw [heq]
  exact tryMatch2_mk w1 w2 t2 hne1 hne2 hup1 hup2

theorem NM1_repl1_append (w T : List Char) (hup : ∀ c ∈ w, isUp c = true)
    (hT : NM1 T) : NM1 (repl1 w ++ T) := by
  have htail : NM1 ((patTail ++ quoteChar :: (w ++ [quoteChar, ']'])) ++ T) := by
    apply NM1_append _ _ ?_ hT
    intro c hc
    rcases List.mem_append.mp hc with h | h
    · exact patTail_ne_m c h
    · simp at h
      rcases h with rfl | h
      · decide
      · rcases h with h | rfl | rfl
        · exact ne_m_of_isUp c (hup c h)
        · decide
        · decide
  have hhead : tryMatch1 (repl1 w ++ T) = Option.none := by
    have heq2 : repl1 w ++ T = patChars ++ quoteChar :: (w ++ quoteChar :: ']' :: T) := by
      rw [repl1]; simp
    rw [heq2]
    exact tryMatch1_pat_quote _
  have heq : repl1 w ++ T = 'm' :: ((patTail ++ quoteChar :: (w ++ [quoteChar, ']'])) ++ T) := by
    rw [repl1, patChars_cons]; simp
  rw [heq]
  apply NM1_cons _ _ ?_ htail
  rw [← heq]
  exact hhead

theorem NM1_repl2_append (w1 w2 T : List Char)
    (hup1 : ∀ c ∈ w1, isUp c = true) (hup2 : ∀ c ∈ w2, isUp c = true)
    (hT : NM1 T) : NM1 (repl2 w1 w2 ++ T) := by
  have htail : NM1 ((patTail ++ quoteChar ::
      (w1 ++ quoteChar :: ',' :: ' ' :: quoteChar :: (w2 ++ [quoteChar, ']']))) ++ T) := by
    apply NM1_append _ _ ?_ hT
    intro c hc
    rcases List.mem_append.mp hc with h | h
    · exact patTail_ne_m c h
    · simp at h
      rcases h with rfl | h
      · decide
      · rcases h with h | rfl | rfl | rfl | rfl | h2
        · exact ne_m_of_isUp c (hup1 c h)
        · decide
        · decide
        · decide
        · decide
        · rcases h2 with h3 | rfl | rfl
          · exact ne_m_of_isUp c (hup2 c h3)
          · decide
          · decide
  have hhead : tryMatch1 (repl2 w1 w2 ++ T) = Option.none := by
    have heq2 : repl2 w1 w2 ++ T = patChars ++ quoteChar ::
        (w1 ++ quoteChar :: ',' :: ' ' :: quoteChar :: (w2 ++ quoteChar :: ']' :: T)) := by
      rw [repl2]; simp
    rw [heq2]
    exact tryMatch1_pat_quote _
  have heq : repl2 w1 w2 ++ T = 'm' :: ((patTail ++ quoteChar ::
      (w1 ++ quoteChar :: ',' :: ' ' :: quoteChar :: (w2 ++ [quoteChar, ']']))) ++ T) := by
    rw [repl2, patChars_cons]; simp
  rw [heq]
  apply NM1_cons _ _ ?_ htail
  rw [← heq]
  exact hhead

theorem NM2_repl2_append (w1 w2 T : List Char)
    (hup1 : ∀ c ∈ w1, isUp c = true) (hup2 : ∀ c ∈ w2, isUp c = true)
    (hT : NM2 T) : NM2 (repl2 w1 w2 ++ T) := by
  have htail : NM2 ((patTail ++ quoteChar ::
      (w1 ++ quoteChar :: ',' :: ' ' :: quoteChar :: (w2 ++ [quoteChar, ']']))) ++ T) := by
    apply NM2_append _ _ ?_ hT
    intro c hc
    rcases List.mem_append.mp hc with h | h
    · exact patTail_ne_m c h
    · simp at h
      rcases h with rfl | h
      · decide
      · rcases h with h | rfl | rfl | rfl | rfl | h2
        · exact ne_m_of_isUp c (hup1 c h)
        · decide
        · decide
        · decide
        · decide
        · rcases h2 with h3 | rfl | rfl
          · exact ne_m_of_isUp c (hup2 c h3)
          · decide
          · decide
  have hhead : tryMatch2 (repl2 w1 w2 ++ T) = Option.none := by
    have heq2 : repl2 w1 w2 ++ T = patChars ++ quoteChar ::
        (w1 ++ quoteChar :: ',' :: ' ' :: quoteChar :: (w2 ++ quoteChar :: ']' :: T)) := by
      rw [repl2]; simp
    rw [heq2]
    exact tryMatch2_pat_quote _
  have heq : repl2 w1 w2 ++ T = 'm' :: ((patTail ++ quoteChar ::
      (w1 ++ quoteChar :: ',' :: ' ' :: quoteChar :: (w2 ++ [quoteChar, ']']))) ++ T) := by
    rw [repl2, patChars_cons]; simp
  rw [heq]
  apply NM2_cons _ _ ?_ htail
  rw [← heq]
  exact hhead

theorem NM1_subst1 (t : List Char) : NM1 (subst1 t) := by
  suffices hS : ∀ n (t : List Char), t.length = n → NM1 (subst1 t) from
    hS t.length t rfl
  intro n
  induction n using Nat.strong_induction_on with
  | _ n IH =>
    intro t hn
    cases t with
    | nil => rw [subst1_nil]; exact NM1_nil
    | cons c rest =>
        cases hm : tryMatch1 (c :: rest) with
        | some p =>
            obtain ⟨w, r⟩ := p
            rw [subst1_cons_some c rest w r hm]
            obtain ⟨hdec, hne, hup⟩ := tryMatch1_some _ w r hm
            have hr : NM1 (subst1 r) :=
              IH r.length (by rw [← hn]; exact tryMatch1_lt _ _ _ hm) r rfl
            exact NM1_repl1_append w (subst1 r) hup hr
        | none =>
            rw [subst1_cons_none c rest hm]
            have hrest : NM1 (subst1 rest) :=
              IH rest.length (by rw [← hn]; simp) rest rfl
            apply NM1_cons c (subst1 rest) ?_ hrest
            by_cases hc : c = 'm'
            · subst hc
              cases hq : tryMatch1 ('m' :: subst1 rest) with
              | none => rfl
              | some p =>
                  obtain ⟨w, r⟩ := p
                  obtain ⟨t2, hmk⟩ := pull1_subst1 rest w r hq
                  rw [hmk] at hm
                  cases hm
            · exact tryMatch1_ne_m c _ hc

theorem NM2_subst2 (t : List Char) : NM2 (subst2 t) := by
  suffices hS : ∀ n (t : List Char), t.length = n → NM2 (subst2 t) from
    hS t.length t rfl
  intro n
  induction n using Nat.strong_induction_on with
  | _ n IH =>
    intro t hn
    cases t with
    | nil => rw [subst2_nil]; exact NM2_nil
    | cons c rest =>
        cases hm : tryMatch2 (c :: rest) with
        | some p =>
            obtain ⟨w1, p2⟩ := p
            obtain ⟨w2, r⟩ := p2
            rw [subst2_cons_some c rest w1 w2 r hm]
            obtain ⟨hdec, hne1, hne2, hup1, hup2⟩ := tryMatch2_some _ w1 w2 r hm
            have hr : NM2 (subst2 r) :=
              IH r.length (by rw [← hn]; exact tryMatch2_lt _ _ _ _ hm) r rfl
            exact NM2_repl2_append w1 w2 (subst2 r) hup1 hup2 hr
        | none =>
            rw [subst2_cons_none c rest hm]
            have hrest : NM2 (subst2 rest) :=
              IH rest.length (by rw [← hn]; simp) rest rfl
            apply NM2_cons c (subst2 rest) ?_ hrest
            by_cases hc : c = 'm'
            · subst hc
              cases hq : tryMatch2 ('m' :: subst2 rest) with
              | none => rfl
              | some p =>
                  obtain ⟨w1, p2⟩ := p
                  obtain ⟨w2, r⟩ := p2
                  obtain ⟨t2, hmk⟩ := pull2_subst2 rest w1 w2 r hq
                  rw [hmk] at hm
                  cases hm
            · exact tryMatch2_ne_m c _ hc

theorem NM1_subst2 (t : List Char) (h : NM1 t) : NM1 (subst2 t) := by
  suffices hS : ∀ n (t : List Char), NM1 t → t.length = n → NM1 (subst2 t) from
    hS t.length t h rfl
  clear h t
  intro n
  induction n using Nat.strong_induction_on with
  | _ n IH =>
    intro t h hn
    cases t with
    | nil => rw [subst2_nil]; exact NM1_nil
    | cons c rest =>
        cases hm : tryMatch2 (c :: rest) with
        | some p =>
            obtain ⟨w1, p2⟩ := p
            obtain ⟨w2, r⟩ := p2
            rw [subst2_cons_some c rest w1 w2 r hm]
            obtain ⟨hdec, hne1, hne2, hup1, hup2⟩ := tryMatch2_some _ w1 w2 r hm
            have hrNM : NM1 r := by
              have h2 : NM1 (patChars ++ (w1 ++ ',' :: ' ' :: (w2 ++ ']' :: r))) :=
                hdec ▸ h
              have h3 : patChars ++ (w1 ++ ',' :: ' ' :: (w2 ++ ']' :: r)) =
                  (patChars ++ (w1 ++ ',' :: ' ' :: (w2 ++ [']']))) ++ r := by
                simp
              rw [h3] at h2
              exact NM1_suffix _ _ h2
            have hr : NM1 (subst2 r) :=
              IH r.length (by rw [← hn]; exact tryMatch2_lt _ _ _ _ hm) r hrNM rfl
            exact NM1_repl2_append w1 w2 (subst2 r) hup1 hup2 hr
        | none =>
            rw [subst2_cons_none c rest hm]
            have hrestNM : NM1 rest := fun k => by simpa using h (k + 1)
            have hrest : NM1 (subst2 rest) :=
              IH rest.length (by rw [← hn]; simp) rest hrestNM rfl
            apply NM1_cons c (subst2 rest) ?_ hrest
            by_cases hc : c = 'm'
            · subst hc
              cases hq : tryMatch1 ('m' :: subst2 rest) with
              | none => rfl
              | some p =>
                  obtain ⟨w, r⟩ := p
                  obtain ⟨t2, hmk⟩ := pull1_subst2 rest w r hq
                  have h0 := h 0
                  simp only [List.drop] at h0
                  rw [hmk] at h0
                  cases h0
            · exact tryMatch1_ne_m c _ hc

theorem subst1_eq_of_NM1 (t : List Char) (h : NM1 t) : subst1 t = t := by
  induction t with
  | nil => exact subst1_nil
  | cons c rest ih =>
      have hh : tryMatch1 (c :: rest) = Option.none := by simpa using h 0
      rw [subst1_cons_none c rest hh]
      have h2 : NM1 rest := fun k => by simpa using h (k + 1)
      rw [ih h2]

theorem subst2_eq_of_NM2 (t : List Char) (h : NM2 t) : subst2 t = t := by
  induction t with
  | nil => exact subst2_nil
  | cons c rest ih =>
      have hh : tryMatch2 (c :: rest) = Option.none := by simpa using h 0
      rw [subst2_cons_none c rest hh]
      have h2 : NM2 rest := fun k => by simpa using h (k + 1)
      rw [ih h2]

theorem applyFix_idem (l : List Char) : applyFix (applyFix l) = applyFix l := by
  unfold applyFix
  have h1 : NM1 (subst1 l) := NM1_subst1 l
  have h2 : NM1 (subst2 (subst1 l)) := NM1_subst2 _ h1
  rw [subst1_eq_of_NM1 _ h2]
  exact subst2_eq_of_NM2 _ (NM2_subst2 (subst1 l))

theorem fix_http_methods_fst (content : String) : (fix_http_methods content).1 = true := by
  by_cases h : fixContent content ≠ content
  · simp [fix_http_methods, h]
  · simp [fix_http_methods, h]

theorem fix_directory_foldl (files : List (String × String)) (acc : List String) :
    files.foldl
      (fun fixed f =>
        if strEndsWith f.1 ".py" then
          if (fix_http_methods f.2).1 then fixed ++ [f.1] else fixed
        else fixed)
      acc
      = acc ++ (files.filter (fun f => strEndsWith f.1 ".py")).map (fun f => f.1) := by
  induction files generalizing acc with
  | nil => simp
  | cons f fs ih =>
      by_cases h : strEndsWith f.1 ".py" = true
      · simp only [List.foldl_cons, if_pos h, fix_http_methods_fst f.2, if_true,
          List.filter_cons, h]
        rw [ih]
        try simp
      · simp only [List.foldl_cons, if_neg h, List.filter_cons]
        rw [ih]
        try simp [h]

/-- C5: the method-list normalization transform of `fix_http_methods` (the
two `re.sub` substitutions, first the single-word pattern, then the
two-word pattern) is idempotent: applying it twice to any text gives the
same result as applying it once. -/
theorem c5_normalizer_idempotent (s : String) :
    fixContent (fixContent s) = fixContent s := by
  unfold fixContent
  have h : (String.mk (applyFix s.toList)).toList = applyFix s.toList := rfl
  rw [h, applyFix_idem]

/-- C2 (amended): `fix_http_methods` returns `True` on every file it could
read and write, whether or not the normalization changed the content
(`False` is reserved for I/O errors); consequently `fix_directory` returns
the names of all `.py` files it processed, not only the changed ones. -/
theorem c2_fixer_flag_and_directory :
    (∀ content : String, (fix_http_methods content).1 = true) ∧
    (∀ files : List (String × String),
      fix_directory files =
        (files.filter (fun f => strEndsWith f.1 ".py")).map (fun f => f.1)) := by
  refine ⟨fix_http_methods_fst, ?_⟩
  intro files
  unfold fix_directory
  simpa using fix_directory_foldl files []

/-- C2 (counterexample): on the unchanged content `"x = 1"`, the transform
is the identity yet `fix_http_methods` still returns `True`, contradicting
the claim that it returns whether the content changed. -/
theorem c2_counterexample :
    fixContent "x = 1" = "x = 1" ∧ (fix_http_methods "x = 1").1 = true := by
  constructor
  · simp [fixContent, applyFix, subst1, subst2, tryMatch1, tryMatch2, stripPat,
      patChars, takeUpper, String.toList]
  · exact fix_http_methods_fst _

/-- C6: dependency-closure resolution is a total function of the call
graph (its recursion is well-founded via the visited set even on
self-recursive and mutually recursive graphs), and for every call graph,
catalog and start name the resolved set contains no name from the
built-in exclusion list. -/
theorem c6_resolution_excludes_builtins
    (calls : List (String × List String)) (catalog : List String) (fn : String) :
    (resolve_all_dependencies calls catalog fn).all
      (fun d => decide (d ∉ builtinNames)) = true := by
  rw [List.all_eq_true]
  intro d hd
  rw [decide_eq_true_iff]
  have hp := (resolveAuxS calls catalog (depsOf calls fn) [] [fn]).property
  rcases hp.2 d hd with h | h
  · cases h
  · exact h.2

/-- C1 (amended): every emitted descriptor's dependency set contains only
names of catalog functions and never a name from the built-in exclusion
list; contrary to the original claim it can contain the route's own name,
when the route calls itself directly or through a cycle of catalog
functions. -/
theorem c1_dependencies_catalog_and_no_builtins
    (ibf : List (String × List ImportDefinition)) (af : List (String × PyStmt))
    (acs : List (String × List String)) (env : List String)
    (po : String → RouteRec → Bool) (route : RouteRec) :
    ((build_function ibf af acs env po route).dependencies).all
      (fun d => decide (d ∈ af.map Prod.fst ∧ d ∉ builtinNames)) = true := by
  rw [List.all_eq_true]
  intro d hd
  rw [decide_eq_true_iff]
  unfold build_function at hd
  simp only at hd
  cases hibf : List.lookup route.file_path ibf with
  | none =>
      rw [hibf] at hd
      cases hacs : List.lookup route.name acs with
      | none =>
          rw [hacs] at hd
          simp at hd
      | some cs =>
          rw [hacs] at hd
          simp only at hd
          have hp := (resolveAuxS acs (af.map Prod.fst)
            (depsOf acs route.name) [] [route.name]).property
          rcases hp.2 d hd with h | h
          · cases h
          · exact h
  | some all_imports =>
      rw [hibf] at hd
      cases hacs : List.lookup route.name acs with
      | none =>
          rw [hacs] at hd
          simp at hd
      | some cs =>
          rw [hacs] at hd
          simp only at hd
          have hp := (resolveAuxS acs (af.map Prod.fst)
            (depsOf acs route.name) [] [route.name]).property
          rcases hp.2 d hd with h | h
          · cases h
          · exact h

/-- C1 (counterexample): the self-recursive route `foo` (body
`return foo()`) yields a descriptor whose dependency set contains the
descriptor's own name, refuting the claim that `dependencies` never
contains the route's own name. -/
theorem c1_counterexample :
    (build_function [("app.py", [])] [("foo", exFooSrc)] [("foo", ["foo"])] []
        (fun _ _ => false) exFooRoute).name = "foo" ∧
    (build_function [("app.py", [])] [("foo", exFooSrc)] [("foo", ["foo"])] []
        (fun _ _ => false) exFooRoute).dependencies = ["foo"] := by
  constructor
  · rfl
  · have h : (build_function [("app.py", [])] [("foo", exFooSrc)] [("foo", ["foo"])] []
        (fun _ _ => false) exFooRoute).dependencies =
        resolve_all_dependencies [("foo", ["foo"])] ["foo"] "foo" := rfl
    rw [h]
    simp [resolve_all_dependencies, resolveAux, resolveAuxS, depsOf, builtinNames]

theorem lookup_mem {α : Type} (k : String) (l : List (String × α)) (v : α)
    (h : List.lookup k l = some v) : (k, v) ∈ l := by
  induction l with
  | nil => cases h
  | cons p rest ih =>
      obtain ⟨k2, v2⟩ := p
      rw [List.lookup] at h
      split at h
      · rename_i heq
        injection h with h2
        have h3 : k = k2 := by simpa using heq
        simp [h3, h2]
      · exact List.mem_cons_of_mem _ (ih h)

theorem nodup_addIfAbsent (a : List ImportDefinition) (imp : ImportDefinition)
    (h : a.Nodup) : (addIfAbsent a imp).Nodup := by
  unfold addIfAbsent
  split
  · exact h
  · rename_i hni
    rw [List.nodup_append]
    refine ⟨h, by simp, ?_⟩
    intro x hx hmem
    simp at hmem
    exact hni (hmem ▸ hx)

theorem mem_addIfAbsent_self (a : List ImportDefinition) (imp : ImportDefinition) :
    imp ∈ addIfAbsent a imp := by
  unfold addIfAbsent
  split
  · assumption
  · simp

theorem mem_addIfAbsent_of_mem (a : List ImportDefinition) (imp x : ImportDefinition)
    (h : x ∈ a) : x ∈ addIfAbsent a imp := by
  unfold addIfAbsent
  split
  · exact h
  · simp [h]

theorem nodup_foldl_preserve {β : Type}
    (step : List ImportDefinition → β → List ImportDefinition)
    (hstep : ∀ a b, a.Nodup → (step a b).Nodup) (l : List β)
    (acc : List ImportDefinition) (h : acc.Nodup) : (l.foldl step acc).Nodup := by
  induction l generalizing acc with
  | nil => simpa using h
  | cons b l ih => exact ih _ (hstep acc b h)

theorem mem_foldl_preserve {β : Type}
    (step : List ImportDefinition → β → List ImportDefinition)
    (hstep : ∀ a b x, x ∈ a → x ∈ step a b) (l : List β)
    (acc : List ImportDefinition) (x : ImportDefinition) (h : x ∈ acc) :
    x ∈ l.foldl step acc := by
  induction l generalizing acc with
  | nil => simpa using h
  | cons b l ih => exact ih _ (hstep acc b x h)

theorem mem_foldl_addIfAbsent (l : List ImportDefinition)
    (acc : List ImportDefinition) (imp : ImportDefinition) (h : imp ∈ l) :
    imp ∈ l.foldl addIfAbsent acc := by
  induction l generalizing acc with
  | nil => cases h
  | cons i l ih =>
      simp only [List.foldl_cons]
      rcases List.mem_cons.mp h with rfl | h2
      · exact mem_foldl_preserve addIfAbsent
          (fun a b x hx => mem_addIfAbsent_of_mem a b x hx) l _ _
          (mem_addIfAbsent_self acc imp)
      · exact ih _ h2

theorem get_imports_nodup (all_imports : List ImportDefinition) (src : PyStmt)
    (ran rn : String) (af : List (String × PyStmt))
    (acs : List (String × List String)) (po : String → Bool)
    (h : all_imports.Nodup) :
    (get_imports_used_by_function all_imports src ran rn af acs po).Nodup := by
  unfold get_imports_used_by_function
  dsimp only
  apply nodup_foldl_preserve _ (fun a b ha => nodup_addIfAbsent a b ha)
  split
  · apply nodup_foldl_preserve _ (fun a b ha => nodup_addIfAbsent a b ha)
    apply nodup_foldl_preserve _ ?pat
    case pat =>
      intro a b ha
      apply nodup_foldl_preserve _ ?pat2 _ _ ha
      intro a2 b2 ha2
      split
      · exact nodup_addIfAbsent a2 b2 ha2
      · exact ha2
    apply nodup_foldl_preserve _ (fun a b ha => nodup_addIfAbsent a b ha)
    apply nodup_foldl_preserve _ ?ess
    case ess =>
      intro a b ha
      split
      · exact nodup_addIfAbsent a b ha
      · exact ha
    exact List.Nodup.filter _ h
  · apply nodup_foldl_preserve _ ?pat3
    case pat3 =>
      intro a b ha
      apply nodup_foldl_preserve _ ?pat4 _ _ ha
      intro a2 b2 ha2
      split
      · exact nodup_addIfAbsent a2 b2 ha2
      · exact ha2
    apply nodup_foldl_preserve _ (fun a b ha => nodup_addIfAbsent a b ha)
    apply nodup_foldl_preserve _ ?ess2
    case ess2 =>
      intro a b ha
      split
      · exact nodup_addIfAbsent a b ha
      · exact ha
    exact List.Nodup.filter _ h

/-- C3 (amended): the emitted `imports` list has no duplicate
`(module, alias)` pair provided the file's recorded import list has none;
a file that declares the same import statement more than once can make the
descriptor's `imports` list repeat that pair, because the static-usage
rule keeps every declared copy (only the heuristic additions are
membership-guarded). -/
theorem c3_imports_nodup_of_nodup_file
    (ibf : List (String × List ImportDefinition)) (af : List (String × PyStmt))
    (acs : List (String × List String)) (env : List String)
    (po : String → RouteRec → Bool) (route : RouteRec)
    (h : ∀ p ∈ ibf, (p.2 : List ImportDefinition).Nodup) :
    (build_function ibf af acs env po route).imports.Nodup := by
  unfold build_function
  dsimp only
  cases hibf : List.lookup route.file_path ibf with
  | none =>
      cases hacs : List.lookup route.name acs with
      | none => simp
      | some cs => simp
  | some all_imports =>
      have hnd : all_imports.Nodup :=
        h (route.file_path, all_imports) (lookup_mem _ _ _ hibf)
      cases hacs : List.lookup route.name acs with
      | none => simpa using get_imports_nodup _ _ _ _ _ _ _ hnd
      | some cs => simpa using get_imports_nodup _ _ _ _ _ _ _ hnd

/-- C3 (witness): the amended theorem applied to a file whose declared
list of imports is duplicate-free. -/
theorem c3_witness :
    (∀ p ∈ ([("app.py", [ImportDefinition.mk "os" "os"])] :
        List (String × List ImportDefinition)), p.2.Nodup) ∧
    (build_function [("app.py", [ImportDefinition.mk "os" "os"])]
        [("get_data", exDupSrc)] [("get_data", [])] [] (fun _ _ => false)
        exDupRoute).imports.Nodup :=
  ⟨by decide,
   c3_imports_nodup_of_nodup_file _ _ _ _ _ _ (by decide)⟩

/-- C3 (counterexample): a file declaring `import os` twice yields, for a
route whose body uses `os`, an `imports` list with the pair
`("os", "os")` twice, refuting the claim that no two entries share the
same `(module, alias)` pair. -/
theorem c3_counterexample :
    (build_function [("app.py", [⟨"os", "os"⟩, ⟨"os", "os"⟩])]
        [("get_data", exDupSrc)] [("get_data", [])] [] (fun _ _ => false)
        exDupRoute).imports
      = [⟨"os", "os"⟩, ⟨"os", "os"⟩] := by
  have h3 : get_imports_for_dependency_functions "get_data"
      [⟨"os", "os"⟩, ⟨"os", "os"⟩] [("get_data", exDupSrc)] [("get_data", [])] = [] := by
    simp [get_imports_for_dependency_functions, resolve_all_dependencies,
      resolveAux, resolveAuxS, depsOf]
  have h2 : (build_function [("app.py", [⟨"os", "os"⟩, ⟨"os", "os"⟩])]
        [("get_data", exDupSrc)] [("get_data", [])] [] (fun _ _ => false)
        exDupRoute).imports =
      get_imports_used_by_function [⟨"os", "os"⟩, ⟨"os", "os"⟩] exDupSrc "app"
        "get_data" [("get_data", exDupSrc)] [("get_data", [])] (fun _ => false) := rfl
  rw [h2]
  unfold get_imports_used_by_function
  rw [h3]
  rfl

theorem mem_get_imports_of_db (all_imports : List ImportDefinition) (src : PyStmt)
    (ran rn : String) (af : List (String × PyStmt)) (acs : List (String × List String))
    (po : String → Bool) (imp : ImportDefinition) (kw : String)
    (h2 : imp ∈ all_imports) (h3 : kw ∈ dbModulesImports)
    (h4 : subMatch kw (strLower imp.module) = true)
    (h5 : check_for_database_usage src = true) :
    imp ∈ get_imports_used_by_function all_imports src ran rn af acs po := by
  unfold get_imports_used_by_function
  dsimp only
  apply mem_foldl_preserve addIfAbsent (fun a b x hx => mem_addIfAbsent_of_mem a b x hx)
  rw [if_pos h5]
  apply mem_foldl_addIfAbsent
  rw [List.mem_filter]
  refine ⟨h2, ?_⟩
  rw [List.any_eq_true]
  exact ⟨kw, h3, h4⟩

/-- C4 (amended): when a route is flagged as using a database, every
file-level import whose module name contains one of the slicer's
database keywords (`db, database, models, sqlalchemy, psycopg2, pymongo,
redis`) is present in the sliced import list; but contrary to the
original claim this keyword list does not cover every
database-ecosystem module the detector recognises — in particular
`sqlite3` and `mysql` imports are not force-included. -/
theorem c4_db_keyword_import_included
    (ibf : List (String × List ImportDefinition)) (af : List (String × PyStmt))
    (acs : List (String × List String)) (env : List String)
    (po : String → RouteRec → Bool) (route : RouteRec)
    (all_imports : List ImportDefinition) (imp : ImportDefinition) (kw : String)
    (h1 : List.lookup route.file_path ibf = some all_imports)
    (h2 : imp ∈ all_imports) (h3 : kw ∈ dbModulesImports)
    (h4 : subMatch kw (strLower imp.module) = true)
    (h5 : check_for_database_usage route.src = true) :
    (build_function ibf af acs env po route).requires_db = true ∧
    imp ∈ (build_function ibf af acs env po route).imports := by
  unfold build_function
  dsimp only
  rw [h1]
  cases hacs : List.lookup route.name acs with
  | none =>
      exact ⟨by simpa using h5, mem_get_imports_of_db _ _ _ _ _ _ _ _ _ h2 h3 h4 h5⟩
  | some cs =>
      exact ⟨by simpa using h5, mem_get_imports_of_db _ _ _ _ _ _ _ _ _ h2 h3 h4 h5⟩

/-- C4 (witness): a `psycopg2` import together with a `.execute(...)`
call is force-included by the amended rule. -/
theorem c4_witness :
    (build_function [("app.py", [⟨"psycopg2", "psycopg2"⟩])] [("get_data", exSqliteSrc)]
        [("get_data", [])] [] (fun _ _ => false) exSqliteRoute).requires_db = true ∧
    (⟨"psycopg2", "psycopg2"⟩ : ImportDefinition) ∈
      (build_function [("app.py", [⟨"psycopg2", "psycopg2"⟩])] [("get_data", exSqliteSrc)]
        [("get_data", [])] [] (fun _ _ => false) exSqliteRoute).imports :=
  c4_db_keyword_import_included _ _ _ _ _ _ _ _ "psycopg2" rfl (by decide) (by decide)
    rfl rfl

/-- C4 (counterexample): a route whose file imports `sqlite3` (alias not
referenced in the body) and whose body calls `conn.execute(...)` is
flagged `requires_db`, yet the `sqlite3` import is missing from the
sliced import list — because `sqlite3` contains none of the slicer's
keywords — refuting the claim for database modules such as `sqlite3`. -/
theorem c4_counterexample :
    (build_function [("app.py", [⟨"sqlite3", "sqlite3"⟩])] [("get_data", exSqliteSrc)]
        [("get_data", ["conn.execute"])] [] (fun _ _ => false)
        exSqliteRoute).requires_db = true ∧
    (⟨"sqlite3", "sqlite3"⟩ : ImportDefinition) ∉
      (build_function [("app.py", [⟨"sqlite3", "sqlite3"⟩])] [("get_data", exSqliteSrc)]
        [("get_data", ["conn.execute"])] [] (fun _ _ => false)
        exSqliteRoute).imports := by
  constructor
  · rfl
  · have h3 : get_imports_for_dependency_functions "get_data" [⟨"sqlite3", "sqlite3"⟩]
        [("get_data", exSqliteSrc)] [("get_data", ["conn.execute"])] = [] := by
      simp [get_imports_for_dependency_functions, resolve_all_dependencies,
        resolveAux, resolveAuxS, depsOf, builtinNames]
    have h2 : (build_function [("app.py", [⟨"sqlite3", "sqlite3"⟩])]
        [("get_data", exSqliteSrc)] [("get_data", ["conn.execute"])] []
        (fun _ _ => false) exSqliteRoute).imports =
        get_imports_used_by_function [⟨"sqlite3", "sqlite3"⟩] exSqliteSrc "app"
          "get_data" [("get_data", exSqliteSrc)] [("get_data", ["conn.execute"])]
          (fun _ => false) := rfl
    have h5 : get_imports_used_by_function [⟨"sqlite3", "sqlite3"⟩] exSqliteSrc "app"
        "get_data" [("get_data", exSqliteSrc)] [("get_data", ["conn.execute"])]
        (fun _ => false) = [] := by
      unfold get_imports_used_by_function
      rw [h3]
      rfl
    rw [h2, h5]
    simp

theorem extractMethodsK_no_methods : ∀ (kws : PyKwList) (ms : List PyVal),
    hasMethodsKw kws = false → extractMethodsK kws ms = ms
  | .nil, ms, _ => rfl
  | .cons arg v rest, ms, h => by
      rw [hasMethodsKw] at h
      rw [Bool.or_eq_false_iff] at h
      have harg : arg ≠ some "methods" := by
        intro hc
        rw [hc] at h
        simp at h
      show extractMethodsK rest
        (if arg = some "methods" then
          match v with
          | .listE elts => collectConsts elts
          | _ => ms
        else ms) = ms
      rw [if_neg harg]
      exact extractMethodsK_no_methods rest ms h.2

/-- C7: a route decorator carrying no `methods` keyword argument yields a
route whose method list is exactly `["GET"]`; a route record carrying
`["GET"]` keeps it through descriptor assembly and serialization; and
every serialized descriptor (`_function_to_dict`) has a non-empty
`methods` list, because an empty list is replaced by `["GET"]`. -/
theorem c7_methods_default_and_nonempty :
    (∀ (apps bps : List String) (recv : String) (args : PyExprList)
        (kws : PyKwList) (m : RouteMatch),
      hasMethodsKw kws = false →
      decoratorRoute apps bps (.call (.attr (.name recv) "route") args kws) = some m →
      m.methods = [PyVal.str "GET"]) ∧
    (∀ (ibf : List (String × List ImportDefinition)) (af : List (String × PyStmt))
        (acs : List (String × List String)) (env : List String)
        (po : String → RouteRec → Bool) (route : RouteRec),
      route.methods = [PyVal.str "GET"] →
      (function_to_dict af (build_function ibf af acs env po route)).methods
        = [PyVal.str "GET"]) ∧
    (∀ (af : List (String × PyStmt)) (f : ServerlessFunction),
      (function_to_dict af f).methods ≠ []) := by
  refine ⟨?_, ?_, ?_⟩
  · intro apps bps recv args kws m hkw hdec
    simp only [decoratorRoute] at hdec
    split at hdec
    · cases args with
      | nil => simp at hdec
      | cons a rest =>
          cases a with
          | const v =>
              dsimp only at hdec
              split at hdec
              · injection hdec with h2
                rw [← h2]
                exact extractMethodsK_no_methods kws _ hkw
              · cases hdec
          | name _ => simp at hdec
          | attr _ _ => simp at hdec
          | listE _ => simp at hdec
          | subscript _ _ => simp at hdec
          | call _ _ _ => simp at hdec
    · cases hdec
  · intro ibf af acs env po route hroute
    have hb : (build_function ibf af acs env po route).methods = route.methods := by
      unfold build_function
      dsimp only
      cases List.lookup route.file_path ibf <;> cases List.lookup route.name acs <;> rfl
    unfold function_to_dict
    dsimp only
    rw [hb, hroute]
    rfl
  · intro af f
    unfold function_to_dict
    dsimp only
    split
    · simp
    · rename_i h
      simpa using h

/-- C7 (witness): the claim theorem applied to `@app.route("/a")` (no
`methods` keyword) and to a descriptor with an empty method list. -/
theorem c7_witness :
    hasMethodsKw PyKwList.nil = false ∧
    decoratorRoute ["app"] [] exDecorator =
      some ⟨PyVal.str "/a", [PyVal.str "GET"], "app"⟩ ∧
    (RouteMatch.mk (PyVal.str "/a") [PyVal.str "GET"] "app").methods = [PyVal.str "GET"] ∧
    exFooRoute.methods = [PyVal.str "GET"] ∧
    (function_to_dict [] (build_function [] [] [] [] (fun _ _ => false)
      exFooRoute)).methods = [PyVal.str "GET"] ∧
    (function_to_dict []
      { name := "f", path := PyVal.str "/", methods := [], src := exFooSrc,
        app_name := "app", dependencies := [], dependency_sources := [],
        imports := [], env_vars := [], file_path := "", requires_db := false }).methods ≠ [] :=
  ⟨rfl, rfl,
   c7_methods_default_and_nonempty.1 ["app"] [] "app"
     (.cons (.const (.str "/a")) .nil) .nil _ rfl rfl,
   rfl,
   c7_methods_default_and_nonempty.2.1 [] [] [] [] (fun _ _ => false) exFooRoute rfl,
   c7_methods_default_and_nonempty.2.2 [] _⟩

/-- C8 (amended): a route-shaped decorator whose first positional
argument is missing or is not a constant node is silently skipped (no
route record, no abort); contrary to the original claim, a decorator
whose first argument is a *truthy non-string constant* (e.g. the integer
literal `42`) is not skipped: it is emitted with that constant as the
path. -/
theorem c8_non_constant_path_skipped
    (apps bps : List String) (recv : String) (args : PyExprList) (kws : PyKwList)
    (h : headIsConst args = false) :
    decoratorRoute apps bps (.call (.attr (.name recv) "route") args kws)
      = Option.none := by
  simp only [decoratorRoute]
  cases args with
  | nil => split <;> rfl
  | cons a rest =>
      cases a with
      | name _ => split <;> rfl
      | attr _ _ => split <;> rfl
      | const v => simp [headIsConst] at h
      | listE _ => split <;> rfl
      | subscript _ _ => split <;> rfl
      | call _ _ _ => split <;> rfl

/-- C8 (witness): a computed first argument (a bare name) produces no
route. -/
theorem c8_witness :
    headIsConst (.cons (.name "p") .nil) = false ∧
    decoratorRoute ["app"] []
      (.call (.attr (.name "app") "route") (.cons (.name "p") .nil) .nil)
      = Option.none :=
  ⟨rfl, c8_non_constant_path_skipped ["app"] [] "app" (.cons (.name "p") .nil) .nil rfl⟩

/-- C8 (counterexample): `@app.route(42)` — the first positional
argument is a non-string constant, so by the claim no route should be
emitted; the code emits a route with path `42`. -/
theorem c8_counterexample :
    decoratorRoute ["app"] []
      (.call (.attr (.name "app") "route") (.cons (.const (.int 42)) .nil) .nil)
      = some ⟨PyVal.int 42, [PyVal.str "GET"], "app"⟩ := rfl

/-- C10: symbol discovery is asymmetric in constructor call shape — an
assignment from a bare-name call `Flask(...)` registers an application
symbol, an assignment from a bare-name call `Blueprint(...)` registers
nothing (only attribute-form `<recv>.Blueprint(...)` does), and a route
decorator on a receiver in neither symbol set is not detected as a
route. -/
theorem c10_constructor_form_asymmetry :
    (∀ (ab : List String × List String) (tid : String) (args : PyExprList)
        (kws : PyKwList),
      symStmt ab (.assign (.cons (.name tid) .nil) (.call (.name "Flask") args kws))
        = (addStr ab.1 tid, ab.2)) ∧
    (∀ (ab : List String × List String) (tid : String) (args : PyExprList)
        (kws : PyKwList),
      symStmt ab (.assign (.cons (.name tid) .nil) (.call (.name "Blueprint") args kws))
        = ab) ∧
    (∀ (apps bps : List String) (recv : String) (args : PyExprList) (kws : PyKwList),
      recv ∉ apps → recv ∉ bps →
      decoratorRoute apps bps (.call (.attr (.name recv) "route") args kws)
        = Option.none) := by
  refine ⟨?_, ?_, ?_⟩
  · intro ab tid args kws
    rfl
  · intro ab tid args kws
    rfl
  · intro apps bps recv args kws h1 h2
    simp only [decoratorRoute]
    rw [if_neg]
    intro hcond
    rcases hcond.2 with h | h
    · exact h1 h
    · exact h2 h

/-- C10 (witness): a bare-name `Blueprint` assignment registers no
symbol, and a route decorated on it is not detected. -/
theorem c10_witness :
    symStmt ([], []) (.assign (.cons (.name "bp") .nil)
        (.call (.name "Blueprint") (.cons (.const (.str "api")) .nil) .nil)) = ([], []) ∧
    decoratorRoute [] []
      (.call (.attr (.name "bp") "route") (.cons (.const (.str "/x")) .nil) .nil)
      = Option.none :=
  ⟨c10_constructor_form_asymmetry.2.1 ([], []) "bp"
     (.cons (.const (.str "api")) .nil) .nil,
   c10_constructor_form_asymmetry.2.2 [] [] "bp"
     (.cons (.const (.str "/x")) .nil) .nil (by decide) (by decide)⟩

theorem build_function_env (ibf : List (String × List ImportDefinition))
    (af : List (String × PyStmt)) (acs : List (String × List String))
    (env : List String) (po : String → RouteRec → Bool) (route : RouteRec) :
    (build_function ibf af acs env po route).env_vars = env := rfl

theorem function_to_dict_env (af : List (String × PyStmt)) (f : ServerlessFunction) :
    (function_to_dict af f).env_vars = f.env_vars := rfl

theorem map_const_replicate {α β : Type} (l : List α) (c : β) :
    l.map (fun _ => c) = List.replicate l.length c := by
  induction l with
  | nil => rfl
  | cons a l ih => simp [List.replicate_succ, ih]

theorem map_env_replicate (routes : List RouteRec)
    (ibf : List (String × List ImportDefinition)) (af : List (String × PyStmt))
    (acs : List (String × List String)) (env : List String)
    (po : String → RouteRec → Bool) :
    (((extract_functions routes ibf af acs env po).map (function_to_dict af)).map
        (fun f => f.env_vars))
      = List.replicate
          ((extract_functions routes ibf af acs env po).map (function_to_dict af)).length
          env := by
  unfold extract_functions
  rw [List.map_map, List.map_map]
  have h : ∀ r ∈ routes,
      (((fun f => f.env_vars) ∘ function_to_dict af) ∘ build_function ibf af acs env po) r
        = (fun _ => env) r := by
    intro r _
    show (function_to_dict af (build_function ibf af acs env po r)).env_vars = env
    rw [function_to_dict_env, build_function_env]
  rw [List.map_congr_left h, map_const_replicate]
  simp

/-- C9: in any single analysis run, every emitted descriptor carries the
same `env_vars` value — the global union over all analyzed files of every
environment-variable read detected anywhere in them — independent of the
route's own body or dependency closure. -/
theorem c9_env_vars_global_union (files : List (String × PyStmtList))
    (po : String → RouteRec → Bool) :
    (parse_model files po).map (fun f => f.env_vars)
      = List.replicate (parse_model files po).length (global_env_vars files) := by
  unfold parse_model
  exact map_env_replicate _ _ _ _ _ _
